import Mathlib

/-!
Verification of the Thorium omnibar filter-query parser.

This file shallow-embeds `ui/src/components/shared/omnibar/types.ts` and
`use_omnibar_parser.ts` (the token pattern, `parseInput`, `extractFreeText`,
`tokensToFilters`, `filtersToQueryString`, `parseQueryString`,
`getCurrentToken`, `getSuggestions`, `applySuggestion`) and the
`removeLastFilter` backspace handler of `omnibar.tsx`, and proves the
spec's testable properties about them.

The JavaScript regex `(-?)(\w+):("[^"]*"|[^\s]+)` is deterministic: the
key `\w+` is greedy and cannot backtrack usefully (shrinking it puts a
word character where `:` is required), the quoted alternative fires
exactly when the character after the colon is `"` and another `"` occurs
later, and otherwise the `[^\s]+` alternative takes the maximal
non-whitespace run.  The embedding implements exactly that scanner.
-/

namespace Thorium

/-- JS `\w`: ASCII word characters `[A-Za-z0-9_]`. -/
def isWordChar (c : Char) : Bool := c.isAlphanum || c = '_'

/-- JS `\s` (the ASCII part): space, tab, LF, VT, FF, CR. -/
def isSpaceChar (c : Char) : Bool :=
  c = ' ' || c = '\t' || c = '\n' || c = '\x0b' || c = '\x0c' || c = '\r'

/-- The filter state of `types.ts` (`FilterState`).  The nullable booleans
`generator` and `used` are modelled as `Option Bool`. -/
structure FilterState where
  search : String
  groups : List String
  excludeGroups : List String
  scalers : List String
  excludeScalers : List String
  generator : Option Bool
  creators : List String
  excludeCreators : List String
  used : Option Bool
  pipelines : List String
  excludePipelines : List String
deriving Repr, DecidableEq

/-- `DEFAULT_FILTER_STATE` of `types.ts`. -/
def DEFAULT_FILTER_STATE : FilterState :=
  { search := ""
  , groups := []
  , excludeGroups := []
  , scalers := []
  , excludeScalers := []
  , generator := none
  , creators := []
  , excludeCreators := []
  , used := none
  , pipelines := []
  , excludePipelines := [] }

/-- `ParsedToken` of `types.ts`. -/
structure ParsedToken where
  key : String
  value : String
  negated : Bool
  raw : String
deriving Repr, DecidableEq

/-- `FILTER_KEYS` of `types.ts`: the keys offered by key autocompletion.
Note that `generator` is not among them. -/
def FILTER_KEYS : List String := ["group", "scaler", "creator", "pipeline", "is"]

/-- Lower-case a string character by character (JS `toLowerCase` on ASCII). -/
def lowerString (s : String) : String := String.mk (s.toList.map Char.toLower)

/-- Strip surrounding double quotes, exactly as
`value.startsWith('"') && value.endsWith('"') ? value.slice(1, -1) : value`
(a single `"` both starts and ends with a quote and strips to the empty
string, matching JS `slice(1, -1)`). -/
def stripQuotes (v : List Char) : List Char :=
  if v.head? = some '"' ∧ v.getLast? = some '"' then (v.drop 1).dropLast else v

/-- The `[^\s]+` alternative of the value group of `TOKEN_PATTERN`:
the maximal non-whitespace run, failing when it is empty. -/
def matchBare (cs3 : List Char) : Option (List Char × List Char) :=
  let v := cs3.takeWhile (fun c => !(isSpaceChar c))
  if v = [] then none else some (v, cs3.dropWhile (fun c => !(isSpaceChar c)))

/-- The value group `("[^"]*"|[^\s]+)` of `TOKEN_PATTERN` applied at `cs3`:
the quoted alternative fires when the first character is `"` and a closing
`"` exists, otherwise the non-whitespace alternative is tried.  Returns the
raw matched characters together with the remaining input. -/
def matchValue (cs3 : List Char) : Option (List Char × List Char) :=
  let dw := cs3.tail.dropWhile (fun c => !(c = '"'))
  if cs3.head? = some '"' ∧ dw ≠ [] then
    some ('"' :: (cs3.tail.takeWhile (fun c => !(c = '"')) ++ ['"']), dw.tail)
  else matchBare cs3

/-- Match `(\w+):("[^"]*"|[^\s]+)` at the head of `cs1`, the negation flag
having already been consumed.  Produces the token (key lower-cased, quotes
stripped from the value, `raw` the exact matched text) and the rest. -/
def matchCore (negated : Bool) (cs1 : List Char) : Option (ParsedToken × List Char) :=
  let keyChars := cs1.takeWhile isWordChar
  let afterKey := cs1.dropWhile isWordChar
  if keyChars ≠ [] ∧ afterKey.head? = some ':' then
    (matchValue afterKey.tail).map (fun pr =>
      ({ key := String.mk (keyChars.map Char.toLower)
       , value := String.mk (stripQuotes pr.1)
       , negated := negated
       , raw := String.mk ((if negated then ['-'] else []) ++ keyChars ++ ':' :: pr.1) }, pr.2))
  else none

/-- Match the full `TOKEN_PATTERN` `(-?)(\w+):("[^"]*"|[^\s]+)` at the head
of `cs`. -/
def matchAt (cs : List Char) : Option (ParsedToken × List Char) :=
  if cs.head? = some '-' then matchCore true cs.tail else matchCore false cs

/-- One pass of the global-regex scan: walk the input, at each position try
`matchAt`; on success emit the token and continue after the match (the JS
`exec` loop advancing `lastIndex`), on failure keep the character as
residual text (what `input.replace(TOKEN_PATTERN, '')` leaves behind).
The fuel argument only serves structural termination; `fuel = cs.length`
always suffices (`scanAux_ge`). -/
def scanAux : Nat → List Char → List ParsedToken × List Char
  | _, [] => ([], [])
  | 0, cs => ([], cs)
  | fuel + 1, c :: cs =>
    match matchAt (c :: cs) with
    | some (tok, rest) =>
      let p := scanAux fuel rest
      (tok :: p.1, p.2)
    | none =>
      let p := scanAux fuel cs
      (p.1, c :: p.2)

/-- Scan a character list with its own length as fuel. -/
def scanInput (cs : List Char) : List ParsedToken × List Char := scanAux cs.length cs

/-- `parseInput` of `use_omnibar_parser.ts`: all `TOKEN_PATTERN` matches of
the input, in order. -/
def parseInput (input : String) : List ParsedToken := (scanInput input.toList).1

/-- JS `String.prototype.trim` on the residual characters. -/
def trimWS (cs : List Char) : List Char :=
  ((cs.dropWhile isSpaceChar).reverse.dropWhile isSpaceChar).reverse

/-- JS `replace(/\s+/g, ' ')`: every maximal whitespace run becomes one
space.  The flag records whether the previous character was whitespace. -/
def collapseAux : Bool → List Char → List Char
  | _, [] => []
  | prevSpace, c :: cs =>
    if isSpaceChar c then
      if prevSpace then collapseAux true cs else ' ' :: collapseAux true cs
    else c :: collapseAux false cs

/-- Collapse whitespace runs to single spaces. -/
def collapseWS (cs : List Char) : List Char := collapseAux false cs

/-- `extractFreeText` of `use_omnibar_parser.ts`:
`input.replace(TOKEN_PATTERN, '').trim().replace(/\s+/g, ' ')`. -/
def extractFreeText (input : String) : String :=
  String.mk (collapseWS (trimWS (scanInput input.toList).2))

/-- The `@me` expansion of the `creator` case:
`token.value === '@me' && currentUser ? currentUser : token.value`. -/
def creatorVal (currentUser v : String) : String :=
  if v = "@me" ∧ currentUser ≠ "" then currentUser else v

/-- The body of the `for (const token of tokens)` loop of `tokensToFilters`:
the `switch` on `token.key` followed by the `is:used` / `is:orphan` handling. -/
def applyToken (currentUser : String) (f : FilterState) (t : ParsedToken) : FilterState :=
  let f1 :=
    if t.key = "group" then
      (if t.negated then { f with excludeGroups := f.excludeGroups ++ [t.value] }
       else { f with groups := f.groups ++ [t.value] })
    else if t.key = "scaler" then
      (if t.negated then { f with excludeScalers := f.excludeScalers ++ [t.value] }
       else { f with scalers := f.scalers ++ [t.value] })
    else if t.key = "is" then
      (if lowerString t.value = "generator" then { f with generator := some (!t.negated) } else f)
    else if t.key = "generator" then
      (if lowerString t.value ∈ (["yes", "true", "1"] : List String) then
         { f with generator := some (!t.negated) }
       else if lowerString t.value ∈ (["no", "false", "0"] : List String) then
         { f with generator := some t.negated }
       else f)
    else if t.key = "creator" then
      (if t.negated then { f with excludeCreators := f.excludeCreators ++ [creatorVal currentUser t.value] }
       else { f with creators := f.creators ++ [creatorVal currentUser t.value] })
    else if t.key = "pipeline" then
      (if t.negated then { f with excludePipelines := f.excludePipelines ++ [t.value] }
       else { f with pipelines := f.pipelines ++ [t.value] })
    else f
  if t.key = "is" then
    (if lowerString t.value = "used" then { f1 with used := some (!t.negated) }
     else if lowerString t.value = "orphan" then { f1 with used := some t.negated }
     else f1)
  else f1

/-- `tokensToFilters` of `use_omnibar_parser.ts`. -/
def tokensToFilters (tokens : List ParsedToken) (freeText : String)
    (currentUser : String) : FilterState :=
  tokens.foldl (applyToken currentUser) { DEFAULT_FILTER_STATE with search := freeText }

/-- JS `value.includes(' ') ? `"${value}"` : value` used by `filtersToQueryString`. -/
def quoteIfSpace (v : String) : String :=
  if ' ' ∈ v.toList then "\"" ++ v ++ "\"" else v

/-- The `parts` array of `filtersToQueryString`, in the exact push order of
the source: groups, excluded groups, scalers (never quoted), excluded
scalers, generator, creators, excluded creators, used/orphan, pipelines,
excluded pipelines, then the free-text search when non-empty. -/
def filterParts (f : FilterState) : List String :=
  (f.groups.map (fun g => "group:" ++ quoteIfSpace g))
  ++ (f.excludeGroups.map (fun g => "-group:" ++ quoteIfSpace g))
  ++ (f.scalers.map (fun s => "scaler:" ++ s))
  ++ (f.excludeScalers.map (fun s => "-scaler:" ++ s))
  ++ (match f.generator with
      | some true => ["is:generator"]
      | some false => ["-is:generator"]
      | none => [])
  ++ (f.creators.map (fun c => "creator:" ++ quoteIfSpace c))
  ++ (f.excludeCreators.map (fun c => "-creator:" ++ quoteIfSpace c))
  ++ (match f.used with
      | some true => ["is:used"]
      | some false => ["is:orphan"]
      | none => [])
  ++ (f.pipelines.map (fun p => "pipeline:" ++ quoteIfSpace p))
  ++ (f.excludePipelines.map (fun p => "-pipeline:" ++ quoteIfSpace p))
  ++ (if f.search = "" then [] else [f.search])

/-- JS `Array.prototype.join(' ')`. -/
def joinSpace : List String → String
  | [] => ""
  | [p] => p
  | p :: rest => p ++ " " ++ joinSpace rest

/-- `filtersToQueryString` of `use_omnibar_parser.ts`: `parts.join(' ')`. -/
def filtersToQueryString (f : FilterState) : String := joinSpace (filterParts f)

/-- `parseQueryString` of `use_omnibar_parser.ts`:
`tokensToFilters(parseInput(q), extractFreeText(q), currentUser)`. -/
def parseQueryString (queryString : String) (currentUser : String) : FilterState :=
  tokensToFilters (parseInput queryString) (extractFreeText queryString) currentUser

/-- The context record returned by `getCurrentToken` (the source names the
first field `partial`; here it is `frag`). -/
structure CurrentTokenCtx where
  frag : String
  isKey : Bool
  key : Option String
  isNegated : Bool
deriving Repr, DecidableEq

/-- `getCurrentToken` of `use_omnibar_parser.ts`: scan back from the cursor
to the previous space, peel a leading `-`, and split at the first colon. -/
def getCurrentToken (input : String) (cursorPos : Nat) : CurrentTokenCtx :=
  let textBeforeCursor := input.toList.take cursorPos
  let currentWord := (textBeforeCursor.reverse.takeWhile (fun c => !(c = ' '))).reverse
  let isNegated := currentWord.head? = some '-'
  let word := if isNegated then currentWord.tail else currentWord
  if ':' ∈ word then
    { frag := String.mk ((word.dropWhile (fun c => !(c = ':'))).tail)
    , isKey := false
    , key := some (lowerString (String.mk (word.takeWhile (fun c => !(c = ':')))))
    , isNegated := isNegated }
  else
    { frag := String.mk word, isKey := true, key := none, isNegated := isNegated }

/-- Suggestion kind (`'key' | 'value'` in `types.ts`). -/
inductive SuggestionType where
  | key : SuggestionType
  | value : SuggestionType
deriving Repr, DecidableEq

/-- `Suggestion` of `types.ts`. -/
structure Suggestion where
  type : SuggestionType
  key : Option String
  value : String
  display : String
deriving Repr, DecidableEq

/-- JS `hay.includes(needle)` on strings, via their character lists. -/
def hasSub (hay needle : String) : Bool :=
  hay.toList.tails.any (fun t => needle.toList.isPrefixOf t)

/-- JS `replace(/^"/, '')`: drop one leading double quote. -/
def dropLeadQuote (s : String) : String :=
  match s.toList with
  | '"' :: t => String.mk t
  | _ => s

/-- The key-suggestion list built by the `context.isKey` branch of
`getSuggestions`: every `FILTER_KEYS` entry starting with the lower-cased
partial (or all of them when the partial is empty), rendered as a
ready-to-insert `key:` token preserving the typed negation prefix. -/
def keySuggestions (pre : String) (pl : String) : List Suggestion :=
  (FILTER_KEYS.filter (fun k => pl.toList.isPrefixOf k.toList || pl = "")).map
    (fun k => { type := SuggestionType.key, key := none
              , value := pre ++ k ++ ":", display := pre ++ k ++ ":" })

/-- `getSuggestions` of `use_omnibar_parser.ts`, the known-value lists and
current user passed explicitly (they are the hook's closure arguments). -/
def getSuggestions (availableGroups availableScalers availableCreators
    availablePipelines : List String) (currentUser : String)
    (input : String) (cursorPos : Nat) : List Suggestion :=
  let ctx := getCurrentToken input cursorPos
  let pre := if ctx.isNegated then "-" else ""
  let suggestions : List Suggestion :=
    if ctx.isKey then
      keySuggestions pre (lowerString ctx.frag)
    else
      match ctx.key with
      | none => []
      | some k =>
        if k = "" then []
        else
          let pl := dropLeadQuote (lowerString ctx.frag)
          if k = "group" then
            (availableGroups.filter (fun g => hasSub (lowerString g) pl || pl = "")).map
              (fun g => { type := SuggestionType.value, key := some "group"
                        , value := pre ++ "group:" ++ quoteIfSpace g, display := g })
          else if k = "scaler" then
            (availableScalers.filter (fun s => hasSub (lowerString s) pl || pl = "")).map
              (fun s => { type := SuggestionType.value, key := some "scaler"
                        , value := pre ++ "scaler:" ++ s, display := s })
          else if k = "is" then
            ((["generator", "used", "orphan"] : List String).filter
                (fun o => hasSub o pl || pl = "")).map
              (fun o => { type := SuggestionType.value, key := some "is"
                        , value := pre ++ "is:" ++ o, display := o })
          else if k = "creator" then
            (if currentUser ≠ "" ∧ (hasSub "@me" pl || pl = "") = true then
               [{ type := SuggestionType.value, key := some "creator"
                , value := pre ++ "creator:@me"
                , display := "@me (" ++ currentUser ++ ")" }]
             else [])
            ++ (availableCreators.filter (fun c => hasSub (lowerString c) pl || pl = "")).map
              (fun c => { type := SuggestionType.value, key := some "creator"
                        , value := pre ++ "creator:" ++ quoteIfSpace c, display := c })
          else if k = "pipeline" then
            (availablePipelines.filter (fun p => hasSub (lowerString p) pl || pl = "")).map
              (fun p => { type := SuggestionType.value, key := some "pipeline"
                        , value := pre ++ "pipeline:" ++ quoteIfSpace p, display := p })
          else if k = "generator" then
            ((["yes", "no"] : List String).filter (fun o => hasSub o pl || pl = "")).map
              (fun o => { type := SuggestionType.value, key := some "generator"
                        , value := pre ++ "generator:" ++ o, display := o })
          else []
  suggestions.take 10

/-- `applySuggestion` of `use_omnibar_parser.ts`: replace the word before
the cursor with the suggestion's insert value (plus a trailing space for
value suggestions) and keep the trim-started text after the cursor. -/
def applySuggestion (input : String) (cursorPos : Nat) (s : Suggestion) : String :=
  let before := input.toList.take cursorPos
  let after := input.toList.drop cursorPos
  let beforeWord := (before.reverse.dropWhile (fun c => !(c = ' '))).reverse
  String.mk (beforeWord ++ s.value.toList
    ++ (if s.type = SuggestionType.value then [' '] else [])
    ++ after.dropWhile isSpaceChar)

/-- `hasActiveFilters` of `omnibar.tsx`. -/
def hasActiveFilters (f : FilterState) : Bool :=
  f.search ≠ "" || f.groups ≠ [] || f.excludeGroups ≠ [] || f.scalers ≠ [] ||
  f.excludeScalers ≠ [] || f.generator ≠ none || f.creators ≠ [] ||
  f.excludeCreators ≠ [] || f.used ≠ none || f.pipelines ≠ [] ||
  f.excludePipelines ≠ []

/-- `removeLastFilter` of `omnibar.tsx`: the backspace-on-empty handler.
Priority: search, then `used`, then `generator`, then the arrays in reverse
order of addition, exclude before include within each dimension. -/
def removeLastFilter (f : FilterState) : FilterState :=
  if f.search ≠ "" then { f with search := "" }
  else if f.used ≠ none then { f with used := none }
  else if f.generator ≠ none then { f with generator := none }
  else if f.excludePipelines ≠ [] then { f with excludePipelines := f.excludePipelines.dropLast }
  else if f.pipelines ≠ [] then { f with pipelines := f.pipelines.dropLast }
  else if f.excludeCreators ≠ [] then { f with excludeCreators := f.excludeCreators.dropLast }
  else if f.creators ≠ [] then { f with creators := f.creators.dropLast }
  else if f.excludeScalers ≠ [] then { f with excludeScalers := f.excludeScalers.dropLast }
  else if f.scalers ≠ [] then { f with scalers := f.scalers.dropLast }
  else if f.excludeGroups ≠ [] then { f with excludeGroups := f.excludeGroups.dropLast }
  else if f.groups ≠ [] then { f with groups := f.groups.dropLast }
  else f

/-! ### Generic list and string helpers -/

/-- Characters of an appended string. -/
theorem toList_append (a b : String) : (a ++ b).toList = a.toList ++ b.toList :=
  String.data_append a b

/-- Rebuilding a string from its characters. -/
theorem mk_toList (s : String) : String.mk s.toList = s := rfl

/-- A string is empty exactly when its character list is. -/
theorem toList_eq_nil {s : String} : s.toList = [] ↔ s = "" := by
  constructor
  · intro h
    have h2 := congrArg String.mk h
    rwa [mk_toList] at h2
  · intro h
    subst h
    rfl

/-- `takeWhile` passes over a fully satisfying prefix. -/
theorem takeWhile_append_all {α} {p : α → Bool} :
    ∀ {a : List α} (b : List α), (∀ c ∈ a, p c = true) →
      (a ++ b).takeWhile p = a ++ b.takeWhile p := by
  intro a
  induction a with
  | nil => intro b _; rfl
  | cons x xs ih =>
    intro b h
    have hx : p x = true := h x (List.mem_cons_self x xs)
    simp only [List.cons_append, List.takeWhile_cons, hx, if_true]
    rw [ih b (fun c hc => h c (List.mem_cons_of_mem x hc))]

/-- `dropWhile` drops a fully satisfying prefix. -/
theorem dropWhile_append_all {α} {p : α → Bool} :
    ∀ {a : List α} (b : List α), (∀ c ∈ a, p c = true) →
      (a ++ b).dropWhile p = b.dropWhile p := by
  intro a
  induction a with
  | nil => intro b _; rfl
  | cons x xs ih =>
    intro b h
    have hx : p x = true := h x (List.mem_cons_self x xs)
    simp only [List.cons_append, List.dropWhile_cons, hx, if_true]
    exact ih b (fun c hc => h c (List.mem_cons_of_mem x hc))

/-- The head of a non-empty `dropWhile` result fails the predicate. -/
theorem dropWhile_head_false {α} {p : α → Bool} :
    ∀ {l : List α} {c : α} {cs : List α}, l.dropWhile p = c :: cs → p c = false := by
  intro l
  induction l with
  | nil => intro c cs h; simp at h
  | cons x xs ih =>
    intro c cs h
    rw [List.dropWhile_cons] at h
    by_cases hx : p x = true
    · rw [if_pos hx] at h
      exact ih h
    · rw [if_neg hx] at h
      injection h with h1 _
      subst h1
      simpa using hx

/-- A list with a known `head?` is that head consed on its tail. -/
theorem eq_cons_of_head? {α} {l : List α} {a : α} (h : l.head? = some a) :
    l = a :: l.tail := by
  cases l with
  | nil => simp at h
  | cons x xs =>
    simp only [List.head?_cons, Option.some.injEq] at h
    subst h
    rfl

/-! ### Scanner correctness infrastructure -/

/-- A successful bare value match is a non-empty prefix of its input. -/
theorem matchBare_spec {cs3 raw rest : List Char} (h : matchBare cs3 = some (raw, rest)) :
    raw ≠ [] ∧ raw ++ rest = cs3 := by
  unfold matchBare at h
  by_cases hv : List.takeWhile (fun c => !(isSpaceChar c)) cs3 = []
  · rw [if_pos hv] at h
    cases h
  · rw [if_neg hv] at h
    simp only [Option.some.injEq, Prod.mk.injEq] at h
    obtain ⟨h1, h2⟩ := h
    subst h1
    subst h2
    exact ⟨hv, List.takeWhile_append_dropWhile _ _⟩

/-- A successful value match is a non-empty prefix of its input. -/
theorem matchValue_spec {cs3 raw rest : List Char} (h : matchValue cs3 = some (raw, rest)) :
    raw ≠ [] ∧ raw ++ rest = cs3 := by
  unfold matchValue at h
  by_cases hq : cs3.head? = some '"' ∧ cs3.tail.dropWhile (fun c => !(c = '"')) ≠ []
  · rw [if_pos hq] at h
    simp only [Option.some.injEq, Prod.mk.injEq] at h
    obtain ⟨h1, h2⟩ := h
    subst h1
    subst h2
    obtain ⟨hh, hd⟩ := hq
    refine ⟨by simp, ?_⟩
    have hdw : cs3.tail.dropWhile (fun c => !(c = '"'))
        = '"' :: (cs3.tail.dropWhile (fun c => !(c = '"'))).tail := by
      cases hd2 : cs3.tail.dropWhile (fun c => !(c = '"')) with
      | nil => exact absurd hd2 hd
      | cons c t =>
        have hc : c = '"' := by simpa using dropWhile_head_false hd2
        subst hc
        rfl
    have hsplit : cs3.tail.takeWhile (fun c => !(c = '"'))
        ++ ('"' :: (cs3.tail.dropWhile (fun c => !(c = '"'))).tail) = cs3.tail := by
      rw [← hdw]
      exact List.takeWhile_append_dropWhile _ _
    calc ('"' :: (cs3.tail.takeWhile (fun c => !(c = '"')) ++ ['"']))
          ++ (cs3.tail.dropWhile (fun c => !(c = '"'))).tail
        = '"' :: (cs3.tail.takeWhile (fun c => !(c = '"'))
            ++ ('"' :: (cs3.tail.dropWhile (fun c => !(c = '"'))).tail)) := by simp
      _ = '"' :: cs3.tail := by rw [hsplit]
      _ = cs3 := (eq_cons_of_head? hh).symm
  · rw [if_neg hq] at h
    exact matchBare_spec h

/-- A successful `matchCore` strictly shrinks the input. -/
theorem matchCore_rest_length {neg : Bool} {cs1 : List Char} {t : ParsedToken}
    {rest : List Char} (h : matchCore neg cs1 = some (t, rest)) :
    rest.length < cs1.length := by
  unfold matchCore at h
  by_cases hc : cs1.takeWhile isWordChar ≠ [] ∧ (cs1.dropWhile isWordChar).head? = some ':'
  · rw [if_pos hc] at h
    obtain ⟨hk, hcol⟩ := hc
    cases hmv : matchValue (cs1.dropWhile isWordChar).tail with
    | none =>
      rw [hmv] at h
      cases h
    | some pr =>
      obtain ⟨raw', rest'⟩ := pr
      rw [hmv] at h
      simp only [Option.map_some', Option.some.injEq, Prod.mk.injEq] at h
      obtain ⟨_, h2⟩ := h
      subst h2
      obtain ⟨hraw, happ⟩ := matchValue_spec hmv
      have e1 : cs1.takeWhile isWordChar ++ cs1.dropWhile isWordChar = cs1 :=
        List.takeWhile_append_dropWhile _ _
      have e2 : cs1.dropWhile isWordChar = ':' :: (cs1.dropWhile isWordChar).tail :=
        eq_cons_of_head? hcol
    -- chain the length decompositions
      have l1 : (cs1.takeWhile isWordChar).length + (cs1.dropWhile isWordChar).length
          = cs1.length := by
        have := congrArg List.length e1
        rwa [List.length_append] at this
      have l2 : (cs1.dropWhile isWordChar).length
          = (cs1.dropWhile isWordChar).tail.length + 1 := by
        conv_lhs => rw [e2]
        simp
      have l3 : raw'.length + rest'.length = (cs1.dropWhile isWordChar).tail.length := by
        rw [← happ, List.length_append]
      have l4 : 1 ≤ (cs1.takeWhile isWordChar).length := by
        cases hk2 : cs1.takeWhile isWordChar with
        | nil => exact absurd hk2 hk
        | cons _ _ => simp
      have l5 : 1 ≤ raw'.length := by
        cases hr2 : raw' with
        | nil => exact absurd hr2 hraw
        | cons _ _ => simp
      omega
  · rw [if_neg hc] at h
    cases h

/-- A successful `matchAt` strictly shrinks the input. -/
theorem matchAt_rest_length {cs : List Char} {t : ParsedToken} {rest : List Char}
    (h : matchAt cs = some (t, rest)) : rest.length < cs.length := by
  unfold matchAt at h
  by_cases hh : cs.head? = some '-'
  · rw [if_pos hh] at h
    have h1 := matchCore_rest_length h
    have h2 : cs = '-' :: cs.tail := eq_cons_of_head? hh
    rw [h2]
    simpa using Nat.lt_succ_of_lt h1
  · rw [if_neg hh] at h
    exact matchCore_rest_length h

/-- The fuel of `scanAux` is irrelevant once it covers the input length:
the scan always completes within `cs.length` steps. -/
theorem scanAux_ge (fuel : Nat) :
    ∀ (cs : List Char), cs.length ≤ fuel → scanAux fuel cs = scanInput cs := by
  induction fuel using Nat.strong_induction_on with
  | _ fuel ih =>
    intro cs hle
    cases cs with
    | nil => cases fuel <;> rfl
    | cons c cs' =>
      cases fuel with
      | zero => simp at hle
      | succ f =>
        have hlen : cs'.length ≤ f := by simpa using hle
        have hright : scanInput (c :: cs') = scanAux (cs'.length + 1) (c :: cs') := by
          unfold scanInput
          rfl
        rw [hright]
        cases hm : matchAt (c :: cs') with
        | some pr =>
          obtain ⟨tok, rest⟩ := pr
          have hr : rest.length < cs'.length + 1 := by
            simpa using matchAt_rest_length hm
          simp only [scanAux, hm]
          rw [ih f (by omega) rest (by omega), ih cs'.length (by omega) rest (by omega)]
        | none =>
          simp only [scanAux, hm]
          rw [ih f (by omega) cs' hlen, ih cs'.length (by omega) cs' le_rfl]

/-- Scanning the empty input. -/
theorem scanInput_nil : scanInput [] = ([], []) := rfl

/-- Scanning when the token pattern matches at the head. -/
theorem scanInput_pos {c : Char} {cs : List Char} {t : ParsedToken} {rest : List Char}
    (h : matchAt (c :: cs) = some (t, rest)) :
    scanInput (c :: cs) = (t :: (scanInput rest).1, (scanInput rest).2) := by
  have hr : rest.length ≤ cs.length := by
    have := matchAt_rest_length h
    simp only [List.length_cons] at this
    omega
  show scanAux (c :: cs).length (c :: cs) = _
  simp only [List.length_cons, scanAux, h]
  rw [scanAux_ge cs.length rest hr]

/-- Scanning when the token pattern does not match at the head. -/
theorem scanInput_neg {c : Char} {cs : List Char} (h : matchAt (c :: cs) = none) :
    scanInput (c :: cs) = ((scanInput cs).1, c :: (scanInput cs).2) := by
  show scanAux (c :: cs).length (c :: cs) = _
  simp only [List.length_cons, scanAux, h]
  rw [scanAux_ge cs.length cs le_rfl]

/-! ### Spec-side decomposition of the serializer (for the ordering claim) -/

/-- Spec wording: the groups block, includes then excludes. -/
def specGroupParts (f : FilterState) : List String :=
  f.groups.map (fun g => "group:" ++ quoteIfSpace g)
    ++ f.excludeGroups.map (fun g => "-group:" ++ quoteIfSpace g)

/-- Spec wording: the scalers block, includes then excludes. -/
def specScalerParts (f : FilterState) : List String :=
  f.scalers.map (fun s => "scaler:" ++ s) ++ f.excludeScalers.map (fun s => "-scaler:" ++ s)

/-- Spec wording: the generator token, when the tri-state is set. -/
def specGeneratorPart (f : FilterState) : List String :=
  match f.generator with
  | some true => ["is:generator"]
  | some false => ["-is:generator"]
  | none => []

/-- Spec wording: the creators block, includes then excludes. -/
def specCreatorParts (f : FilterState) : List String :=
  f.creators.map (fun c => "creator:" ++ quoteIfSpace c)
    ++ f.excludeCreators.map (fun c => "-creator:" ++ quoteIfSpace c)

/-- Spec wording: the used/orphan token, when the tri-state is set. -/
def specUsedPart (f : FilterState) : List String :=
  match f.used with
  | some true => ["is:used"]
  | some false => ["is:orphan"]
  | none => []

/-- Spec wording: the pipelines block, includes then excludes. -/
def specPipelineParts (f : FilterState) : List String :=
  f.pipelines.map (fun p => "pipeline:" ++ quoteIfSpace p)
    ++ f.excludePipelines.map (fun p => "-pipeline:" ++ quoteIfSpace p)

/-- Spec wording: the trailing free-text part, when non-empty. -/
def specSearchPart (f : FilterState) : List String :=
  if f.search = "" then [] else [f.search]

/-! ### Claim C6 -/

/-- Claim C6: for every `FilterState` `f`, regardless of how `f` was
constructed, `filtersToQueryString f` emits its tokens in the fixed order
groups (include then exclude), scalers (include then exclude), generator,
creators (include then exclude), used/orphan, pipelines (include then
exclude), then the free-text search, joined by single spaces. -/
theorem claim6_canonical_order (f : FilterState) :
    filtersToQueryString f = joinSpace
      (specGroupParts f ++ specScalerParts f ++ specGeneratorPart f
        ++ specCreatorParts f ++ specUsedPart f ++ specPipelineParts f
        ++ specSearchPart f) := by
  simp only [filtersToQueryString, filterParts, specGroupParts, specScalerParts,
    specGeneratorPart, specCreatorParts, specUsedPart, specPipelineParts,
    specSearchPart, List.append_assoc]

/-! ### Claim C10 -/

/-- Claim C10: the empty state round-trips trivially at the persistence
boundary: `filtersToQueryString DEFAULT_FILTER_STATE = ""`, and parsing the
empty query string with any current user restores `DEFAULT_FILTER_STATE`. -/
theorem claim10_empty_roundtrip :
    filtersToQueryString DEFAULT_FILTER_STATE = "" ∧
    ∀ currentUser : String, parseQueryString "" currentUser = DEFAULT_FILTER_STATE :=
  ⟨rfl, fun _ => rfl⟩

/-! ### Claim C5 -/

/-- Claim C5: `removeLastFilter` (the backspace-on-empty handler) removes
exactly one field, by the fixed precedence search, used, generator, then
exclude/include pairs for pipelines, creators, scalers, groups, popping the
last element of the first non-empty sequence; all other fields are left
unchanged, and a state with no active filter is returned as is. -/
theorem claim5_remove_precedence (f : FilterState) :
    (f.search ≠ "" → removeLastFilter f = { f with search := "" }) ∧
    (f.search = "" → f.used ≠ none → removeLastFilter f = { f with used := none }) ∧
    (f.search = "" → f.used = none → f.generator ≠ none →
      removeLastFilter f = { f with generator := none }) ∧
    (f.search = "" → f.used = none → f.generator = none → f.excludePipelines ≠ [] →
      removeLastFilter f = { f with excludePipelines := f.excludePipelines.dropLast }) ∧
    (f.search = "" → f.used = none → f.generator = none → f.excludePipelines = [] →
      f.pipelines ≠ [] →
      removeLastFilter f = { f with pipelines := f.pipelines.dropLast }) ∧
    (f.search = "" → f.used = none → f.generator = none → f.excludePipelines = [] →
      f.pipelines = [] → f.excludeCreators ≠ [] →
      removeLastFilter f = { f with excludeCreators := f.excludeCreators.dropLast }) ∧
    (f.search = "" → f.used = none → f.generator = none → f.excludePipelines = [] →
      f.pipelines = [] → f.excludeCreators = [] → f.creators ≠ [] →
      removeLastFilter f = { f with creators := f.creators.dropLast }) ∧
    (f.search = "" → f.used = none → f.generator = none → f.excludePipelines = [] →
      f.pipelines = [] → f.excludeCreators = [] → f.creators = [] →
      f.excludeScalers ≠ [] →
      removeLastFilter f = { f with excludeScalers := f.excludeScalers.dropLast }) ∧
    (f.search = "" → f.used = none → f.generator = none → f.excludePipelines = [] →
      f.pipelines = [] → f.excludeCreators = [] → f.creators = [] →
      f.excludeScalers = [] → f.scalers ≠ [] →
      removeLastFilter f = { f with scalers := f.scalers.dropLast }) ∧
    (f.search = "" → f.used = none → f.generator = none → f.excludePipelines = [] →
      f.pipelines = [] → f.excludeCreators = [] → f.creators = [] →
      f.excludeScalers = [] → f.scalers = [] → f.excludeGroups ≠ [] →
      removeLastFilter f = { f with excludeGroups := f.excludeGroups.dropLast }) ∧
    (f.search = "" → f.used = none → f.generator = none → f.excludePipelines = [] →
      f.pipelines = [] → f.excludeCreators = [] → f.creators = [] →
      f.excludeScalers = [] → f.scalers = [] → f.excludeGroups = [] → f.groups ≠ [] →
      removeLastFilter f = { f with groups := f.groups.dropLast }) ∧
    (f.search = "" → f.used = none → f.generator = none → f.excludePipelines = [] →
      f.pipelines = [] → f.excludeCreators = [] → f.creators = [] →
      f.excludeScalers = [] → f.scalers = [] → f.excludeGroups = [] → f.groups = [] →
      removeLastFilter f = f) := by
  refine ⟨?_, ?_, ?_, ?_, ?_, ?_, ?_, ?_, ?_, ?_, ?_, ?_⟩ <;>
    · intros
      simp only [removeLastFilter, *]
      simp_all

/-- Witness for C5: the spec's own example; with `search = "x"`,
`pipelines = ["p1"]`, the first backspace clears only the search, the
second pops `p1`. -/
theorem claim5_witness :
    removeLastFilter { DEFAULT_FILTER_STATE with search := "x", pipelines := ["p1"] }
      = { DEFAULT_FILTER_STATE with pipelines := ["p1"] } ∧
    removeLastFilter { DEFAULT_FILTER_STATE with pipelines := ["p1"] }
      = DEFAULT_FILTER_STATE := by
  constructor
  · have h := (claim5_remove_precedence
      { DEFAULT_FILTER_STATE with search := "x", pipelines := ["p1"] }).1 (by decide)
    rw [h]
    decide
  · have h := (claim5_remove_precedence
      { DEFAULT_FILTER_STATE with pipelines := ["p1"] }).2.2.2.2.1
      rfl rfl rfl rfl (by decide)
    rw [h]
    decide

/-! ### Claim C2 -/

/-- Counterexample for C2: a scaler value containing a space is emitted
verbatim, with no double quote anywhere in the output. -/
theorem claim2_counterexample :
    filtersToQueryString { DEFAULT_FILTER_STATE with scalers := ["a b"] } = "scaler:a b" ∧
    (' ' ∈ ("a b" : String).toList) ∧
    ('"' ∉ (filtersToQueryString
      { DEFAULT_FILTER_STATE with scalers := ["a b"] }).toList) := by
  refine ⟨rfl, by decide, by decide⟩

/-- Claim C2 (amended): a value containing a space is wrapped in double
quotes in the emitted token for the group, creator and pipeline dimensions
(include and exclude); scaler and excludeScaler values are emitted verbatim,
never quoted. -/
theorem claim2_quote_rules (f : FilterState) (v : String) (hsp : ' ' ∈ v.toList) :
    (quoteIfSpace v = "\"" ++ v ++ "\"") ∧
    (v ∈ f.groups → ("group:" ++ quoteIfSpace v) ∈ filterParts f) ∧
    (v ∈ f.excludeGroups → ("-group:" ++ quoteIfSpace v) ∈ filterParts f) ∧
    (v ∈ f.creators → ("creator:" ++ quoteIfSpace v) ∈ filterParts f) ∧
    (v ∈ f.excludeCreators → ("-creator:" ++ quoteIfSpace v) ∈ filterParts f) ∧
    (v ∈ f.pipelines → ("pipeline:" ++ quoteIfSpace v) ∈ filterParts f) ∧
    (v ∈ f.excludePipelines → ("-pipeline:" ++ quoteIfSpace v) ∈ filterParts f) ∧
    (v ∈ f.scalers → ("scaler:" ++ v) ∈ filterParts f) ∧
    (v ∈ f.excludeScalers → ("-scaler:" ++ v) ∈ filterParts f) := by
  refine ⟨if_pos hsp, ?_, ?_, ?_, ?_, ?_, ?_, ?_, ?_⟩ <;> intro hv <;>
    simp only [filterParts]
  · exact List.mem_append_left _ (List.mem_append_left _ (List.mem_append_left _
      (List.mem_append_left _ (List.mem_append_left _ (List.mem_append_left _
        (List.mem_append_left _ (List.mem_append_left _ (List.mem_append_left _
          (List.mem_append_left _ (List.mem_map_of_mem _ hv))))))))))
  · exact List.mem_append_left _ (List.mem_append_left _ (List.mem_append_left _
      (List.mem_append_left _ (List.mem_append_left _ (List.mem_append_left _
        (List.mem_append_left _ (List.mem_append_left _ (List.mem_append_left _
          (List.mem_append_right _ (List.mem_map_of_mem _ hv))))))))))
  · exact List.mem_append_left _ (List.mem_append_left _ (List.mem_append_left _
      (List.mem_append_left _ (List.mem_append_left _
        (List.mem_append_right _ (List.mem_map_of_mem _ hv))))))
  · exact List.mem_append_left _ (List.mem_append_left _ (List.mem_append_left _
      (List.mem_append_left _ (List.mem_append_right _ (List.mem_map_of_mem _ hv)))))
  · exact List.mem_append_left _ (List.mem_append_left _
      (List.mem_append_right _ (List.mem_map_of_mem _ hv)))
  · exact List.mem_append_left _ (List.mem_append_right _ (List.mem_map_of_mem _ hv))
  · exact List.mem_append_left _ (List.mem_append_left _ (List.mem_append_left _
      (List.mem_append_left _ (List.mem_append_left _ (List.mem_append_left _
        (List.mem_append_left _ (List.mem_append_left _
          (List.mem_append_right _ (List.mem_map_of_mem _ hv)))))))))
  · exact List.mem_append_left _ (List.mem_append_left _ (List.mem_append_left _
      (List.mem_append_left _ (List.mem_append_left _ (List.mem_append_left _
        (List.mem_append_left _
          (List.mem_append_right _ (List.mem_map_of_mem _ hv))))))))

/-- Witness for C2: concrete membership facts obtained from
`claim2_quote_rules` at `v = "a b"`. -/
theorem claim2_witness :
    (' ' ∈ ("a b" : String).toList) ∧
    ("group:" ++ quoteIfSpace "a b")
      ∈ filterParts { DEFAULT_FILTER_STATE with groups := ["a b"], scalers := ["a b"] } ∧
    ("scaler:" ++ "a b")
      ∈ filterParts { DEFAULT_FILTER_STATE with groups := ["a b"], scalers := ["a b"] } := by
  refine ⟨by decide, ?_, ?_⟩
  · exact (claim2_quote_rules
      { DEFAULT_FILTER_STATE with groups := ["a b"], scalers := ["a b"] } "a b"
      (by decide)).2.1 (by decide)
  · exact (claim2_quote_rules
      { DEFAULT_FILTER_STATE with groups := ["a b"], scalers := ["a b"] } "a b"
      (by decide)).2.2.2.2.2.2.2.1 (by decide)

/-! ### Claim C4 -/

/-- Counterexample for C4: with the typed mid-key partial `gen`, no
suggestion at all is produced — in particular no key suggestion for
`generator`, which is absent from `FILTER_KEYS`. -/
theorem claim4_counterexample :
    getSuggestions ["alpha"] ["K8s"] ["bob"] ["p1"] "alice" "gen" 3 = [] := by
  decide

/-- Claim C4 (amended): mid-key (no colon in the in-progress token),
`getSuggestions` returns a key-type suggestion for every key of
`FILTER_KEYS` — `group`, `scaler`, `creator`, `pipeline`, `is` — whose name
starts with the typed partial (lower-cased), preserving a leading `-` the
user already typed; `generator` is not in `FILTER_KEYS` and is never
offered as a key suggestion. -/
theorem claim4_key_suggestions (gs ss cs ps : List String) (cu input : String)
    (cursorPos : Nat) (k : String) (hk : k ∈ FILTER_KEYS)
    (hkey : (getCurrentToken input cursorPos).isKey = true)
    (hpre : (lowerString (getCurrentToken input cursorPos).frag).toList.isPrefixOf
      k.toList = true) :
    (({ type := SuggestionType.key, key := none
      , value := (if (getCurrentToken input cursorPos).isNegated then "-" else "")
          ++ k ++ ":"
      , display := (if (getCurrentToken input cursorPos).isNegated then "-" else "")
          ++ k ++ ":" } : Suggestion)
      ∈ getSuggestions gs ss cs ps cu input cursorPos) ∧
    ("generator" ∉ FILTER_KEYS) := by
  constructor
  · unfold getSuggestions
    simp only [hkey, if_true]
    have hlen : (keySuggestions
        (if (getCurrentToken input cursorPos).isNegated then "-" else "")
        (lowerString (getCurrentToken input cursorPos).frag)).length ≤ 10 := by
      unfold keySuggestions
      rw [List.length_map]
      exact le_trans (List.length_filter_le _ _) (by decide)
    rw [List.take_of_length_le hlen]
    unfold keySuggestions
    refine List.mem_map_of_mem _ (List.mem_filter.2 ⟨hk, ?_⟩)
    rw [Bool.or_eq_true]
    exact Or.inl hpre
  · decide

/-- Witness for C4: the typed partial `gr` yields the `group:` key
suggestion. -/
theorem claim4_witness :
    (({ type := SuggestionType.key, key := none
      , value := (if (getCurrentToken "gr" 2).isNegated then "-" else "") ++ "group" ++ ":"
      , display := (if (getCurrentToken "gr" 2).isNegated then "-" else "")
          ++ "group" ++ ":" } : Suggestion)
      ∈ getSuggestions ["alpha"] ["K8s"] [] [] "" "gr" 2) :=
  (claim4_key_suggestions ["alpha"] ["K8s"] [] [] "" "gr" 2 "group"
    (by decide) (by decide) (by decide)).1

/-! ### Claim C9 -/

/-- Claim C9: the parser operations are total: the token scan always
completes within fuel equal to the input length (extra fuel never changes
the result, so no input can drive the scanner into a failure), and a token
with an unrecognized key is silently dropped by the mapping stage, leaving
the filter state untouched. -/
theorem claim9_total :
    (∀ (cs : List Char) (extra : Nat), scanAux (cs.length + extra) cs = scanInput cs) ∧
    (∀ (currentUser : String) (f : FilterState) (t : ParsedToken),
      t.key ∉ (["group", "scaler", "is", "generator", "creator", "pipeline"] : List String) →
      applyToken currentUser f t = f) := by
  constructor
  · intro cs extra
    exact scanAux_ge (cs.length + extra) cs (by omega)
  · intro currentUser f t ht
    simp only [List.mem_cons, List.mem_singleton, not_or] at ht
    obtain ⟨h1, h2, h3, h4, h5, h6⟩ := ht
    simp [applyToken, h1, h2, h3, h4, h5, h6]

/-- Witness for C9: concrete instances — extra fuel on a concrete input,
and a concrete unknown-key token leaving the default state unchanged. -/
theorem claim9_witness :
    scanAux (("group:a x" : String).toList.length + 5) ("group:a x" : String).toList
      = scanInput ("group:a x" : String).toList ∧
    applyToken "alice" DEFAULT_FILTER_STATE
      { key := "bogus", value := "x", negated := false, raw := "bogus:x" }
      = DEFAULT_FILTER_STATE := by
  constructor
  · exact claim9_total.1 ("group:a x" : String).toList 5
  · exact claim9_total.2 "alice" DEFAULT_FILTER_STATE
      { key := "bogus", value := "x", negated := false, raw := "bogus:x" } (by decide)

/-! ### Claim C7 -/

/-- The effect of one token on the `generator` tri-state (the value the
token sets, or `none` when it does not affect it), read off the `is` and
`generator` cases of `tokensToFilters`. -/
def genEffect (t : ParsedToken) : Option Bool :=
  if t.key = "is" then
    (if lowerString t.value = "generator" then some (!t.negated) else none)
  else if t.key = "generator" then
    (if lowerString t.value ∈ (["yes", "true", "1"] : List String) then some (!t.negated)
     else if lowerString t.value ∈ (["no", "false", "0"] : List String) then some t.negated
     else none)
  else none

/-- The effect of one token on the `used` tri-state. -/
def usedEffect (t : ParsedToken) : Option Bool :=
  if t.key = "is" then
    (if lowerString t.value = "used" then some (!t.negated)
     else if lowerString t.value = "orphan" then some t.negated
     else none)
  else none

/-- One loop step changes `generator` exactly when `genEffect` fires. -/
theorem applyToken_generator (cu : String) (f : FilterState) (t : ParsedToken) :
    (applyToken cu f t).generator =
      match genEffect t with
      | some b => some b
      | none => f.generator := by
  unfold applyToken genEffect
  split_ifs <;> first | rfl | simp_all

/-- One loop step changes `used` exactly when `usedEffect` fires. -/
theorem applyToken_used (cu : String) (f : FilterState) (t : ParsedToken) :
    (applyToken cu f t).used =
      match usedEffect t with
      | some b => some b
      | none => f.used := by
  unfold applyToken usedEffect
  split_ifs <;> rfl

/-- Claim C7: for every token list, the resulting `generator` and `used`
tri-states equal the value dictated by the last token in the list that
affects that tri-state; earlier conflicting tokens are overwritten, never
merged. -/
theorem claim7_tristate_last_wins (tokens : List ParsedToken)
    (freeText currentUser : String) :
    ((tokensToFilters tokens freeText currentUser).generator
      = ((tokens.filter (fun t => (genEffect t).isSome)).getLast?.bind genEffect)) ∧
    ((tokensToFilters tokens freeText currentUser).used
      = ((tokens.filter (fun t => (usedEffect t).isSome)).getLast?.bind usedEffect)) := by
  induction tokens using List.reverseRecOn with
  | nil => exact ⟨rfl, rfl⟩
  | append_singleton ts t ih =>
    unfold tokensToFilters at ih ⊢
    rw [List.foldl_append]
    simp only [List.foldl_cons, List.foldl_nil]
    constructor
    · rw [applyToken_generator]
      cases hg : genEffect t with
      | some b =>
        have hft : List.filter (fun t => (genEffect t).isSome) [t] = [t] := by
          simp [List.filter, hg]
        rw [List.filter_append, hft, List.getLast?_concat]
        simp [hg]
      | none =>
        have hft : List.filter (fun t => (genEffect t).isSome) [t] = [] := by
          simp [List.filter, hg]
        rw [List.filter_append, hft, List.append_nil]
        exact ih.1
    · rw [applyToken_used]
      cases hu : usedEffect t with
      | some b =>
        have hft : List.filter (fun t => (usedEffect t).isSome) [t] = [t] := by
          simp [List.filter, hu]
        rw [List.filter_append, hft, List.getLast?_concat]
        simp [hu]
      | none =>
        have hft : List.filter (fun t => (usedEffect t).isSome) [t] = [] := by
          simp [List.filter, hu]
        rw [List.filter_append, hft, List.append_nil]
        exact ih.2

/-! ### Claim C8 -/

/-- Claim C8: a `creator:@me` token (negated or not) appends the
caller-supplied current user to `creators` (or `excludeCreators`) when one
is supplied, and the literal `@me` otherwise; in particular parsing
`creator:@me` with current user `alice` yields `creators = ["alice"]`, and
with no current user yields `creators = ["@me"]`. -/
theorem claim8_at_me (tokens : List ParsedToken) (freeText currentUser raw : String)
    (neg : Bool) :
    (tokensToFilters
        (tokens ++ [{ key := "creator", value := "@me", negated := neg, raw := raw }])
        freeText currentUser
      = (if neg then
          { tokensToFilters tokens freeText currentUser with
            excludeCreators := (tokensToFilters tokens freeText currentUser).excludeCreators
              ++ [if currentUser = "" then "@me" else currentUser] }
        else
          { tokensToFilters tokens freeText currentUser with
            creators := (tokensToFilters tokens freeText currentUser).creators
              ++ [if currentUser = "" then "@me" else currentUser] })) ∧
    ((parseQueryString "creator:@me" "alice").creators = ["alice"]) ∧
    ((parseQueryString "creator:@me" "").creators = ["@me"]) := by
  refine ⟨?_, by decide, by decide⟩
  unfold tokensToFilters
  rw [List.foldl_append]
  simp only [List.foldl_cons, List.foldl_nil]
  unfold applyToken creatorVal
  by_cases hcu : currentUser = ""
  · subst hcu
    cases neg <;> simp
  · cases neg <;> simp [hcu]


/-! ### Matching behaviour on well-formed serialized tokens -/

/-- Word characters are never the negation dash. -/
theorem word_ne_dash {c : Char} (h : isWordChar c = true) : ¬ c = '-' := by
  intro he
  subst he
  exact absurd h (by decide)

/-- A list all of whose elements satisfy the predicate drops entirely. -/
theorem dropWhile_eq_nil_of_all {α} {p : α → Bool} {l : List α}
    (h : ∀ c ∈ l, p c = true) : l.dropWhile p = [] := by
  have h2 := dropWhile_append_all (p := p) (a := l) ([] : List α) h
  simpa using h2

/-- `matchAt` on an optional dash followed by a word-character key reduces
to `matchCore` with the corresponding negation flag. -/
theorem matchAt_prefix (neg : Bool) (k tail0 : List Char) (hk : k ≠ [])
    (hkw : ∀ c ∈ k, isWordChar c = true) :
    matchAt ((if neg then ['-'] else []) ++ (k ++ tail0)) = matchCore neg (k ++ tail0) := by
  cases neg with
  | true =>
    show matchAt ('-' :: (k ++ tail0)) = matchCore true (k ++ tail0)
    unfold matchAt
    rw [if_pos (by simp)]
    rfl
  | false =>
    show matchAt ([] ++ (k ++ tail0)) = matchCore false (k ++ tail0)
    rw [List.nil_append]
    unfold matchAt
    cases k with
    | nil => exact absurd rfl hk
    | cons c k' =>
      have hc : isWordChar c = true := hkw c (List.mem_cons_self c k')
      rw [if_neg]
      simp only [List.cons_append, List.head?_cons, ne_eq, Option.some.injEq]
      exact word_ne_dash hc

/-- The token pattern never matches at a space. -/
theorem matchAt_space (cs : List Char) : matchAt (' ' :: cs) = none := by
  unfold matchAt
  rw [if_neg (by simp)]
  unfold matchCore
  rw [if_neg]
  intro hcon
  have h1 : List.takeWhile isWordChar (' ' :: cs) = [] := by
    rw [List.takeWhile_cons, if_neg (show ¬ (isWordChar ' ' = true) by decide)]
  exact hcon.1 h1

/-- The token pattern never matches on the empty input. -/
theorem matchAt_nil : matchAt ([] : List Char) = none := rfl

/-- A word-character key followed by a colon is exactly the `takeWhile`
prefix of the scan. -/
theorem takeWhile_key (k X : List Char) (hkw : ∀ c ∈ k, isWordChar c = true) :
    List.takeWhile isWordChar (k ++ ':' :: X) = k := by
  rw [takeWhile_append_all _ hkw, List.takeWhile_cons,
    if_neg (show ¬ (isWordChar ':' = true) by decide), List.append_nil]

/-- The drop counterpart of `takeWhile_key`. -/
theorem dropWhile_key (k X : List Char) (hkw : ∀ c ∈ k, isWordChar c = true) :
    List.dropWhile isWordChar (k ++ ':' :: X) = ':' :: X := by
  rw [dropWhile_append_all _ hkw, List.dropWhile_cons,
    if_neg (show ¬ (isWordChar ':' = true) by decide)]

/-- Evaluation of `matchCore` once the value match is known. -/
theorem matchCore_eval (neg : Bool) (k X : List Char) (hk : k ≠ [])
    (hkw : ∀ c ∈ k, isWordChar c = true) {raw rest : List Char}
    (hmv : matchValue X = some (raw, rest)) :
    matchCore neg (k ++ ':' :: X) =
      some ({ key := String.mk (k.map Char.toLower)
            , value := String.mk (stripQuotes raw)
            , negated := neg
            , raw := String.mk ((if neg then ['-'] else []) ++ k ++ ':' :: raw) }, rest) := by
  unfold matchCore
  rw [takeWhile_key k X hkw, dropWhile_key k X hkw]
  rw [if_pos ⟨hk, rfl⟩]
  simp only [List.tail_cons, hmv, Option.map_some']

/-- The bare value alternative on a non-empty whitespace-free value whose
continuation is empty or starts with a space. -/
theorem matchValue_bare (v rest : List Char) (hv : v ≠ [])
    (hvs : ∀ c ∈ v, isSpaceChar c = false) (hvq : ∀ c ∈ v, ¬ c = '"')
    (hr : rest = [] ∨ ∃ r', rest = ' ' :: r') :
    matchValue (v ++ rest) = some (v, rest) := by
  have hkeep : ∀ c ∈ v, (!(isSpaceChar c)) = true := by
    intro c hc
    simp [hvs c hc]
  have htwv : List.takeWhile (fun c => !(isSpaceChar c)) (v ++ rest) = v := by
    rw [takeWhile_append_all rest hkeep]
    rcases hr with h0 | ⟨r', h1⟩
    · simp [h0]
    · rw [h1, List.takeWhile_cons,
        if_neg (show ¬ ((!(isSpaceChar ' ')) = true) by decide)]
      simp
  have hdwv : List.dropWhile (fun c => !(isSpaceChar c)) (v ++ rest) = rest := by
    rw [dropWhile_append_all rest hkeep]
    rcases hr with h0 | ⟨r', h1⟩
    · simp [h0]
    · rw [h1, List.dropWhile_cons,
        if_neg (show ¬ ((!(isSpaceChar ' ')) = true) by decide)]
  have hvhead : ¬ (v ++ rest).head? = some '"' := by
    cases v with
    | nil => exact absurd rfl hv
    | cons c v' =>
      intro hcon
      simp only [List.cons_append, List.head?_cons, Option.some.injEq] at hcon
      exact hvq c (List.mem_cons_self c v') hcon
  have hmb : matchBare (v ++ rest) = some (v, rest) := by
    unfold matchBare
    rw [htwv, hdwv, if_neg hv]
  unfold matchValue
  rw [if_neg]
  · exact hmb
  · intro hcon
    exact hvhead hcon.1

/-- The quoted alternative on a quote-free inner value with a closing
quote. -/
theorem matchValue_quoted (v rest : List Char) (hvq : ∀ c ∈ v, ¬ c = '"') :
    matchValue ('"' :: (v ++ '"' :: rest)) = some ('"' :: (v ++ ['"']), rest) := by
  have hkeep : ∀ c ∈ v, (!(c = '"')) = true := by
    intro c hc
    simp [hvq c hc]
  have hdw : List.dropWhile (fun c => !(c = '"')) (v ++ '"' :: rest) = '"' :: rest := by
    rw [dropWhile_append_all _ hkeep, List.dropWhile_cons,
      if_neg (show ¬ ((!(('"' : Char) = '"'))= true) by decide)]
  have htw : List.takeWhile (fun c => !(c = '"')) (v ++ '"' :: rest) = v := by
    rw [takeWhile_append_all _ hkeep, List.takeWhile_cons,
      if_neg (show ¬ ((!(('"' : Char) = '"'))= true) by decide)]
    simp
  unfold matchValue
  simp only [List.tail_cons, List.head?_cons, hdw, htw]
  rw [if_pos (by simp)]

/-- The fallback on an unterminated quote: the value starts with the quote
and no closing quote occurs anywhere later, so the non-whitespace
alternative fires from the quote itself. -/
theorem matchValue_unclosed (w rest : List Char) (hw : w ≠ [])
    (hws : ∀ c ∈ w, isSpaceChar c = false) (hwq : ∀ c ∈ w, ¬ c = '"')
    (hrq : ∀ c ∈ rest, ¬ c = '"')
    (hrsp : rest = [] ∨ ∃ r', rest = ' ' :: r') :
    matchValue ('"' :: (w ++ rest)) = some ('"' :: w, rest) := by
  have hdwnil : List.dropWhile (fun c => !(c = '"')) (w ++ rest) = [] := by
    apply dropWhile_eq_nil_of_all
    intro c hc
    rcases List.mem_append.1 hc with h1 | h2
    · simp [hwq c h1]
    · simp [hrq c h2]
  have hkeepsp : ∀ c ∈ w, (!(isSpaceChar c)) = true := by
    intro c hc
    simp [hws c hc]
  have htw : List.takeWhile (fun c => !(isSpaceChar c)) (w ++ rest) = w := by
    rw [takeWhile_append_all _ hkeepsp]
    rcases hrsp with h0 | ⟨r', h1⟩
    · simp [h0]
    · rw [h1, List.takeWhile_cons,
        if_neg (show ¬ ((!(isSpaceChar ' ')) = true) by decide)]
      simp
  have hdwr : List.dropWhile (fun c => !(isSpaceChar c)) (w ++ rest) = rest := by
    rw [dropWhile_append_all _ hkeepsp]
    rcases hrsp with h0 | ⟨r', h1⟩
    · simp [h0]
    · rw [h1, List.dropWhile_cons,
        if_neg (show ¬ ((!(isSpaceChar ' ')) = true) by decide)]
  have hmb : matchBare ('"' :: (w ++ rest)) = some ('"' :: w, rest) := by
    unfold matchBare
    rw [List.takeWhile_cons, if_pos (show (!(isSpaceChar '"')) = true by decide),
      List.dropWhile_cons, if_pos (show (!(isSpaceChar '"')) = true by decide)]
    rw [htw, hdwr, if_neg (by simp)]
  unfold matchValue
  simp only [List.tail_cons, List.head?_cons, hdwnil]
  rw [if_neg (by simp)]
  exact hmb

/-- Quote stripping is the identity on quote-free non-empty values. -/
theorem stripQuotes_noquote (v : List Char) (hv : v ≠ [])
    (hvq : ∀ c ∈ v, ¬ c = '"') : stripQuotes v = v := by
  unfold stripQuotes
  rw [if_neg]
  intro hcon
  cases v with
  | nil => exact absurd rfl hv
  | cons c v' =>
    have : c = '"' := by simpa using hcon.1
    exact hvq c (List.mem_cons_self c v') this

/-- Quote stripping removes exactly the surrounding quotes of a quoted
value. -/
theorem stripQuotes_quoted (v : List Char) : stripQuotes ('"' :: (v ++ ['"'])) = v := by
  unfold stripQuotes
  rw [if_pos]
  · show (('"' :: (v ++ ['"'])).drop 1).dropLast = v
    simp only [List.drop_one, List.tail_cons]
    exact List.dropLast_concat
  · constructor
    · rfl
    · show ('"' :: (v ++ ['"'])).getLast? = some '"'
      have h2 : '"' :: (v ++ ['"']) = ('"' :: v) ++ ['"'] := by simp
      rw [h2]
      exact List.getLast?_concat _

/-- Quote stripping leaves an unterminated-quote value untouched. -/
theorem stripQuotes_unclosed (w : List Char) (hw : w ≠ [])
    (hwq : ∀ c ∈ w, ¬ c = '"') : stripQuotes ('"' :: w) = '"' :: w := by
  unfold stripQuotes
  rw [if_neg]
  intro hcon
  obtain ⟨w', a, rfl⟩ : ∃ w' a, w = w' ++ [a] := by
    cases w using List.reverseRecOn with
    | nil => exact absurd rfl hw
    | append_singleton w' a _ => exact ⟨w', a, rfl⟩
  have hlast : ('"' :: (w' ++ [a])).getLast? = some a := by
    have h2 : '"' :: (w' ++ [a]) = ('"' :: w') ++ [a] := by simp
    rw [h2]
    exact List.getLast?_concat _
  rw [hlast] at hcon
  have : a = '"' := by simpa using hcon.2
  exact hwq a (by simp) this


/-! ### Claim C3 -/

/-- Counterexample for C3: the unterminated-quote input
`creator:"Jane Doe` does produce a token (the tokenizer falls back to the
non-whitespace alternative), and only `Doe` is recovered as free text, not
the whole span. -/
theorem claim3_counterexample :
    parseInput "creator:\"Jane Doe" ≠ [] ∧
    extractFreeText "creator:\"Jane Doe" = "Doe" := by
  constructor
  · decide
  · decide

/-- Claim C3 (amended): on a `key:"value` candidate whose quote is never
closed before the end of the input, the quoted alternative of the token
pattern fails and the tokenizer falls back to the non-whitespace run: it
produces a token whose value keeps the opening quote and stops at the next
whitespace, and only the remainder after that whitespace is recovered as
free text.  Stated for inputs `k ++ ":\"" ++ w ++ " " ++ r` with `k` a
non-empty lower-case word-character key, `w` a non-empty whitespace-free
quote-free run, and `r` free of double quotes. -/
theorem claim3_unterminated_fallback (k w r : String)
    (hk : k.toList ≠ []) (hkw : ∀ c ∈ k.toList, isWordChar c = true)
    (hkl : k.toList.map Char.toLower = k.toList)
    (hw : w.toList ≠ []) (hws : ∀ c ∈ w.toList, isSpaceChar c = false)
    (hwq : ∀ c ∈ w.toList, ¬ c = '"')
    (hrq : ∀ c ∈ r.toList, ¬ c = '"') :
    parseInput (k ++ ":\"" ++ w ++ " " ++ r)
        = { key := k, value := "\"" ++ w, negated := false
          , raw := k ++ ":\"" ++ w } :: parseInput r ∧
    extractFreeText (k ++ ":\"" ++ w ++ " " ++ r) = extractFreeText (" " ++ r) := by
  have hrq2 : ∀ c ∈ (' ' :: r.toList), ¬ c = '"' := by
    intro c hc
    rcases List.mem_cons.1 hc with h1 | h2
    · subst h1
      decide
    · exact hrq c h2
  have hmv := matchValue_unclosed w.toList (' ' :: r.toList) hw hws hwq hrq2
    (Or.inr ⟨r.toList, rfl⟩)
  have hmc := matchCore_eval false k.toList ('"' :: (w.toList ++ ' ' :: r.toList))
    hk hkw hmv
  have hkey : String.mk (k.toList.map Char.toLower) = k := by
    rw [hkl, mk_toList]
  have hval : String.mk (stripQuotes ('"' :: w.toList)) = "\"" ++ w := by
    rw [stripQuotes_unclosed w.toList hw hwq]
    have h2 : ("\"" ++ w).toList = '"' :: w.toList := by
      rw [toList_append]
      rfl
    rw [← h2, mk_toList]
  have hraw : String.mk (((if false then ['-'] else []) : List Char)
      ++ k.toList ++ ':' :: ('"' :: w.toList)) = k ++ ":\"" ++ w := by
    have h2 : (k ++ ":\"" ++ w).toList = ((if false then ['-'] else []) : List Char)
        ++ k.toList ++ ':' :: ('"' :: w.toList) := by
      simp only [toList_append, if_neg Bool.false_ne_true, List.nil_append]
      simp [show ((":\"" : String).toList = [':', '"']) from rfl, List.append_assoc]
    rw [← h2, mk_toList]
  rw [hkey, hval, hraw] at hmc
  have hma : matchAt (k.toList ++ ':' :: ('"' :: (w.toList ++ ' ' :: r.toList)))
      = some ({ key := k, value := "\"" ++ w, negated := false
              , raw := k ++ ":\"" ++ w }, ' ' :: r.toList) := by
    have h := matchAt_prefix false k.toList
      (':' :: ('"' :: (w.toList ++ ' ' :: r.toList))) hk hkw
    rw [show (((if false then ['-'] else []) : List Char)) = [] from rfl,
      List.nil_append] at h
    rw [h, hmc]
  have hchars : (k ++ ":\"" ++ w ++ " " ++ r).toList
      = k.toList ++ ':' :: ('"' :: (w.toList ++ ' ' :: r.toList)) := by
    simp [toList_append, show ((":\"" : String).toList = [':', '"']) from rfl,
      show ((" " : String).toList = [' ']) from rfl, List.append_assoc]
  obtain ⟨c, k', hck⟩ : ∃ c k', k.toList = c :: k' := by
    cases hkk : k.toList with
    | nil => exact absurd hkk hk
    | cons c k' => exact ⟨c, k', rfl⟩
  rw [hck, List.cons_append] at hma hchars
  have hscan := scanInput_pos hma
  have hsp : scanInput (' ' :: r.toList)
      = ((scanInput r.toList).1, ' ' :: (scanInput r.toList).2) :=
    scanInput_neg (matchAt_space r.toList)
  constructor
  · show (scanInput (k ++ ":\"" ++ w ++ " " ++ r).toList).1 = _
    rw [hchars, hscan, hsp]
    rfl
  · show String.mk (collapseWS (trimWS (scanInput (k ++ ":\"" ++ w ++ " " ++ r).toList).2))
        = String.mk (collapseWS (trimWS (scanInput (" " ++ r).toList).2))
    rw [hchars, hscan, hsp]
    have h3 : (" " ++ r).toList = ' ' :: r.toList := by
      rw [toList_append]
      rfl
    rw [h3, hsp]

/-- Witness for C3: the spec's own example `creator:"Jane Doe`, with the
fallback token and the `Doe` free text made concrete. -/
theorem claim3_witness :
    (parseInput ("creator" ++ ":\"" ++ "Jane" ++ " " ++ "Doe")
        = { key := "creator", value := "\"" ++ "Jane", negated := false
          , raw := "creator" ++ ":\"" ++ "Jane" } :: parseInput "Doe" ∧
      extractFreeText ("creator" ++ ":\"" ++ "Jane" ++ " " ++ "Doe")
        = extractFreeText (" " ++ "Doe")) :=
  claim3_unterminated_fallback "creator" "Jane" "Doe" (by decide) (by decide)
    (by decide) (by decide) (by decide) (by decide) (by decide)


/-! ### Round-trip machinery: well-formed states and serialized pairs -/

/-- A value of a quotable dimension that survives the round trip: non-empty,
free of double quotes, and with no whitespace other than plain spaces. -/
def goodVal (v : String) : Prop :=
  v ≠ "" ∧ ∀ c ∈ v.toList, ¬ c = '"' ∧ (isSpaceChar c = true → c = ' ')

/-- A value of an unquoted dimension (scalers) that survives the round
trip: non-empty, free of double quotes, with no whitespace at all. -/
def goodBare (v : String) : Prop :=
  v ≠ "" ∧ ∀ c ∈ v.toList, ¬ c = '"' ∧ isSpaceChar c = false

/-- Well-formedness of a `FilterState` for the serialize/parse round trip:
every quotable value is `goodVal`, every scaler value is `goodBare`, and
the search text is empty or scans to pure token-free, already normalized
free text. -/
def goodState (f : FilterState) : Prop :=
  (∀ v ∈ f.groups, goodVal v) ∧ (∀ v ∈ f.excludeGroups, goodVal v) ∧
  (∀ v ∈ f.scalers, goodBare v) ∧ (∀ v ∈ f.excludeScalers, goodBare v) ∧
  (∀ v ∈ f.creators, goodVal v) ∧ (∀ v ∈ f.excludeCreators, goodVal v) ∧
  (∀ v ∈ f.pipelines, goodVal v) ∧ (∀ v ∈ f.excludePipelines, goodVal v) ∧
  (f.search = "" ∨ (scanInput f.search.toList = ([], f.search.toList) ∧
    trimWS f.search.toList = f.search.toList ∧
    collapseWS f.search.toList = f.search.toList))

/-- Serialized part and token of a quotable dimension. -/
def qTokPair (neg : Bool) (k : String) (v : String) : String × ParsedToken :=
  ((if neg then "-" else "") ++ k ++ ":" ++ quoteIfSpace v,
   { key := k, value := v, negated := neg
   , raw := (if neg then "-" else "") ++ k ++ ":" ++ quoteIfSpace v })

/-- Serialized part and token of an unquoted dimension. -/
def bTokPair (neg : Bool) (k : String) (v : String) : String × ParsedToken :=
  ((if neg then "-" else "") ++ k ++ ":" ++ v,
   { key := k, value := v, negated := neg
   , raw := (if neg then "-" else "") ++ k ++ ":" ++ v })

/-- The generator part of the serialization, as a pair list. -/
def genPairs : Option Bool → List (String × ParsedToken)
  | none => []
  | some true => [bTokPair false "is" "generator"]
  | some false => [bTokPair true "is" "generator"]

/-- The used/orphan part of the serialization, as a pair list. -/
def usedPairs : Option Bool → List (String × ParsedToken)
  | none => []
  | some true => [bTokPair false "is" "used"]
  | some false => [bTokPair false "is" "orphan"]

/-- The whole serialization of a `FilterState` as (part, token) pairs, in
the emission order of `filtersToQueryString` (search excluded). -/
def pairsOf (f : FilterState) : List (String × ParsedToken) :=
  f.groups.map (qTokPair false "group") ++ f.excludeGroups.map (qTokPair true "group")
  ++ f.scalers.map (bTokPair false "scaler") ++ f.excludeScalers.map (bTokPair true "scaler")
  ++ genPairs f.generator
  ++ f.creators.map (qTokPair false "creator") ++ f.excludeCreators.map (qTokPair true "creator")
  ++ usedPairs f.used
  ++ f.pipelines.map (qTokPair false "pipeline") ++ f.excludePipelines.map (qTokPair true "pipeline")

/-- The part strings of `genPairs` agree with the serializer's generator
block. -/
theorem genPairs_fst (o : Option Bool) :
    (genPairs o).map Prod.fst = (match o with
      | some true => ["is:generator"]
      | some false => ["-is:generator"]
      | none => ([] : List String)) := by
  rcases o with _ | b
  · rfl
  · cases b <;> rfl

/-- The part strings of `usedPairs` agree with the serializer's used
block. -/
theorem usedPairs_fst (o : Option Bool) :
    (usedPairs o).map Prod.fst = (match o with
      | some true => ["is:used"]
      | some false => ["is:orphan"]
      | none => ([] : List String)) := by
  rcases o with _ | b
  · rfl
  · cases b <;> rfl

/-- The serializer's parts list is exactly the pair parts followed by the
optional search text. -/
theorem parts_eq (f : FilterState) :
    filterParts f = (pairsOf f).map Prod.fst
      ++ (if f.search = "" then [] else [f.search]) := by
  unfold filterParts pairsOf
  simp only [List.map_append, List.map_map, genPairs_fst, usedPairs_fst]
  rfl

/-- A part string together with its token is self-matching: `matchAt`
consumes exactly the part and yields exactly the token, whenever the
continuation is empty or starts with a space. -/
def SelfTok (p : String) (t : ParsedToken) : Prop :=
  ∀ rest : List Char, (rest = [] ∨ ∃ r', rest = ' ' :: r') →
    matchAt (p.toList ++ rest) = some (t, rest)

/-- A non-empty string has a non-empty character list. -/
theorem toList_ne_nil {v : String} (h : v ≠ "") : v.toList ≠ [] := by
  intro h2
  exact h (toList_eq_nil.mp h2)

/-- Self-matching parts are non-empty. -/
theorem selfTok_ne_nil {p : String} {t : ParsedToken} (h : SelfTok p t) :
    p.toList ≠ [] := by
  intro h0
  have hma := h [] (Or.inl rfl)
  rw [h0, List.nil_append, matchAt_nil] at hma
  cases hma

/-- Self-matching of a serialized bare token. -/
theorem selfTok_b (neg : Bool) (k v : String)
    (hk : k.toList ≠ []) (hkw : ∀ c ∈ k.toList, isWordChar c = true)
    (hkl : k.toList.map Char.toLower = k.toList)
    (hvne : v.toList ≠ []) (hvs : ∀ c ∈ v.toList, isSpaceChar c = false)
    (hvq : ∀ c ∈ v.toList, ¬ c = '"') :
    SelfTok (bTokPair neg k v).1 (bTokPair neg k v).2 := by
  intro rest hr
  have hmv := matchValue_bare v.toList rest hvne hvs hvq hr
  have hmc := matchCore_eval neg k.toList (v.toList ++ rest) hk hkw hmv
  rw [stripQuotes_noquote v.toList hvne hvq, hkl] at hmc
  simp only [mk_toList] at hmc
  have hraw : String.mk ((if neg then ['-'] else []) ++ k.toList ++ ':' :: v.toList)
      = (if neg then "-" else "") ++ k ++ ":" ++ v := by
    have h2 : ((if neg then "-" else "") ++ k ++ ":" ++ v).toList
        = (if neg then ['-'] else []) ++ k.toList ++ ':' :: v.toList := by
      cases neg <;>
        simp [toList_append, show (("-" : String).toList = ['-']) from rfl,
          show ((":" : String).toList = [':']) from rfl, List.append_assoc]
    rw [← h2, mk_toList]
  rw [hraw] at hmc
  have hpl : ((if neg then "-" else "") ++ k ++ ":" ++ v).toList ++ rest
      = (if neg then ['-'] else []) ++ (k.toList ++ ':' :: (v.toList ++ rest)) := by
    cases neg <;>
      simp [toList_append, show (("-" : String).toList = ['-']) from rfl,
        show ((":" : String).toList = [':']) from rfl, List.append_assoc]
  show matchAt (((if neg then "-" else "") ++ k ++ ":" ++ v).toList ++ rest) = _
  rw [hpl, matchAt_prefix neg k.toList _ hk hkw, hmc]
  rfl

/-- Self-matching of a serialized quotable token. -/
theorem selfTok_q (neg : Bool) (k v : String)
    (hk : k.toList ≠ []) (hkw : ∀ c ∈ k.toList, isWordChar c = true)
    (hkl : k.toList.map Char.toLower = k.toList)
    (hv : goodVal v) :
    SelfTok (qTokPair neg k v).1 (qTokPair neg k v).2 := by
  obtain ⟨hvne0, hvfacts⟩ := hv
  have hvne : v.toList ≠ [] := toList_ne_nil hvne0
  have hvq : ∀ c ∈ v.toList, ¬ c = '"' := fun c hc => (hvfacts c hc).1
  by_cases hsp : ' ' ∈ v.toList
  · -- quoted branch
    have hq : quoteIfSpace v = "\"" ++ v ++ "\"" := if_pos hsp
    intro rest hr
    have hmv := matchValue_quoted v.toList rest hvq
    have hmc := matchCore_eval neg k.toList ('"' :: (v.toList ++ '"' :: rest)) hk hkw hmv
    rw [stripQuotes_quoted, hkl] at hmc
    simp only [mk_toList] at hmc
    have hraw : String.mk ((if neg then ['-'] else [])
          ++ k.toList ++ ':' :: ('"' :: (v.toList ++ ['"'])))
        = (if neg then "-" else "") ++ k ++ ":" ++ quoteIfSpace v := by
      have h2 : ((if neg then "-" else "") ++ k ++ ":" ++ quoteIfSpace v).toList
          = (if neg then ['-'] else [])
            ++ k.toList ++ ':' :: ('"' :: (v.toList ++ ['"'])) := by
        rw [hq]
        cases neg <;>
          simp [toList_append, show (("-" : String).toList = ['-']) from rfl,
            show ((":" : String).toList = [':']) from rfl,
            show (("\"" : String).toList = ['"']) from rfl, List.append_assoc]
      rw [← h2, mk_toList]
    rw [hraw] at hmc
    have hpl : ((if neg then "-" else "") ++ k ++ ":" ++ quoteIfSpace v).toList ++ rest
        = (if neg then ['-'] else [])
          ++ (k.toList ++ ':' :: ('"' :: (v.toList ++ '"' :: rest))) := by
      rw [hq]
      cases neg <;>
        simp [toList_append, show (("-" : String).toList = ['-']) from rfl,
          show ((":" : String).toList = [':']) from rfl,
          show (("\"" : String).toList = ['"']) from rfl, List.append_assoc]
    show matchAt (((if neg then "-" else "") ++ k ++ ":" ++ quoteIfSpace v).toList ++ rest) = _
    rw [hpl, matchAt_prefix neg k.toList _ hk hkw, hmc]
    rfl
  · -- bare branch: no space in the value at all
    have hq : quoteIfSpace v = v := if_neg hsp
    have hvs : ∀ c ∈ v.toList, isSpaceChar c = false := by
      intro c hc
      cases hsc : isSpaceChar c with
      | false => rfl
      | true =>
        have : c = ' ' := (hvfacts c hc).2 hsc
        subst this
        exact absurd hc hsp
    have heq : qTokPair neg k v = bTokPair neg k v := by
      unfold qTokPair bTokPair
      rw [hq]
    rw [heq]
    exact selfTok_b neg k v hk hkw hkl hvne hvs hvq

/-- All serialized pairs of a well-formed state are self-matching. -/
theorem selfTok_pairsOf (f : FilterState) (hf : goodState f) :
    ∀ pr ∈ pairsOf f, SelfTok pr.1 pr.2 := by
  obtain ⟨h1, h2, h3, h4, h5, h6, h7, h8, _⟩ := hf
  intro pr hpr
  unfold pairsOf at hpr
  simp only [List.mem_append] at hpr
  rcases hpr with ((((((((hm | hm) | hm) | hm) | hm) | hm) | hm) | hm) | hm) | hm
  · obtain ⟨v, hv, rfl⟩ := List.mem_map.1 hm
    exact selfTok_q false "group" v (by decide) (by decide) (by decide) (h1 v hv)
  · obtain ⟨v, hv, rfl⟩ := List.mem_map.1 hm
    exact selfTok_q true "group" v (by decide) (by decide) (by decide) (h2 v hv)
  · obtain ⟨v, hv, rfl⟩ := List.mem_map.1 hm
    obtain ⟨hvne, hvf⟩ := h3 v hv
    exact selfTok_b false "scaler" v (by decide) (by decide) (by decide)
      (toList_ne_nil hvne) (fun c hc => (hvf c hc).2) (fun c hc => (hvf c hc).1)
  · obtain ⟨v, hv, rfl⟩ := List.mem_map.1 hm
    obtain ⟨hvne, hvf⟩ := h4 v hv
    exact selfTok_b true "scaler" v (by decide) (by decide) (by decide)
      (toList_ne_nil hvne) (fun c hc => (hvf c hc).2) (fun c hc => (hvf c hc).1)
  · rcases hg : f.generator with _ | b
    · rw [hg] at hm
      cases hm
    · rw [hg] at hm
      cases b
      · rw [show genPairs (some false) = [bTokPair true "is" "generator"] from rfl] at hm
        rw [List.mem_singleton.1 hm]
        exact selfTok_b true "is" "generator" (by decide) (by decide) (by decide)
          (by decide) (by decide) (by decide)
      · rw [show genPairs (some true) = [bTokPair false "is" "generator"] from rfl] at hm
        rw [List.mem_singleton.1 hm]
        exact selfTok_b false "is" "generator" (by decide) (by decide) (by decide)
          (by decide) (by decide) (by decide)
  · obtain ⟨v, hv, rfl⟩ := List.mem_map.1 hm
    exact selfTok_q false "creator" v (by decide) (by decide) (by decide) (h5 v hv)
  · obtain ⟨v, hv, rfl⟩ := List.mem_map.1 hm
    exact selfTok_q true "creator" v (by decide) (by decide) (by decide) (h6 v hv)
  · rcases hu : f.used with _ | b
    · rw [hu] at hm
      cases hm
    · rw [hu] at hm
      cases b
      · rw [show usedPairs (some false) = [bTokPair false "is" "orphan"] from rfl] at hm
        rw [List.mem_singleton.1 hm]
        exact selfTok_b false "is" "orphan" (by decide) (by decide) (by decide)
          (by decide) (by decide) (by decide)
      · rw [show usedPairs (some true) = [bTokPair false "is" "used"] from rfl] at hm
        rw [List.mem_singleton.1 hm]
        exact selfTok_b false "is" "used" (by decide) (by decide) (by decide)
          (by decide) (by decide) (by decide)
  · obtain ⟨v, hv, rfl⟩ := List.mem_map.1 hm
    exact selfTok_q false "pipeline" v (by decide) (by decide) (by decide) (h7 v hv)
  · obtain ⟨v, hv, rfl⟩ := List.mem_map.1 hm
    exact selfTok_q true "pipeline" v (by decide) (by decide) (by decide) (h8 v hv)


/-! ### Round-trip machinery: scanning a serialized string -/

/-- The character stream of the serialized parts joined by spaces, with the
optional trailing search text. -/
def joinChars : List (String × ParsedToken) → String → List Char
  | [], s => s.toList
  | [pr], s => pr.1.toList ++ (if s = "" then [] else ' ' :: s.toList)
  | pr :: rest, s => pr.1.toList ++ ' ' :: joinChars rest s

/-- The residual characters the scan leaves behind on such a stream: the
separator spaces and the search text. -/
def resChars : List (String × ParsedToken) → String → List Char
  | [], s => s.toList
  | [_], s => if s = "" then [] else ' ' :: s.toList
  | _ :: rest, s => ' ' :: resChars rest s

/-- Equation lemma: `joinChars` on the empty pair list. -/
theorem joinChars_nil (s : String) : joinChars [] s = s.toList := rfl

/-- Equation lemma: `joinChars` on a single pair. -/
theorem joinChars_single (pr : String × ParsedToken) (s : String) :
    joinChars [pr] s = pr.1.toList ++ (if s = "" then [] else ' ' :: s.toList) := rfl

/-- Equation lemma: `joinChars` on two or more pairs. -/
theorem joinChars_cons2 (pr q : String × ParsedToken) (rest : List (String × ParsedToken))
    (s : String) :
    joinChars (pr :: q :: rest) s = pr.1.toList ++ ' ' :: joinChars (q :: rest) s := rfl

/-- Equation lemma: `resChars` on the empty pair list. -/
theorem resChars_nil (s : String) : resChars [] s = s.toList := rfl

/-- Equation lemma: `resChars` on a single pair. -/
theorem resChars_single (pr : String × ParsedToken) (s : String) :
    resChars [pr] s = (if s = "" then [] else ' ' :: s.toList) := rfl

/-- Equation lemma: `resChars` on two or more pairs. -/
theorem resChars_cons2 (pr q : String × ParsedToken) (rest : List (String × ParsedToken))
    (s : String) :
    resChars (pr :: q :: rest) s = ' ' :: resChars (q :: rest) s := rfl

/-- Equation lemma: `joinSpace` on the empty list. -/
theorem joinSpace_nil : joinSpace [] = "" := rfl

/-- Equation lemma: `joinSpace` on a singleton. -/
theorem joinSpace_single (p : String) : joinSpace [p] = p := rfl

/-- Equation lemma: `joinSpace` on two or more strings. -/
theorem joinSpace_cons2 (p q : String) (rest : List String) :
    joinSpace (p :: q :: rest) = p ++ " " ++ joinSpace (q :: rest) := rfl

/-- `joinSpace` on the parts plus optional search equals `joinChars`. -/
theorem joinSpace_pairs : ∀ (pairs : List (String × ParsedToken)) (s : String),
    (joinSpace (pairs.map Prod.fst ++ (if s = "" then [] else [s]))).toList
      = joinChars pairs s := by
  intro pairs
  induction pairs with
  | nil =>
    intro s
    rw [List.map_nil, List.nil_append, joinChars_nil]
    by_cases hs : s = ""
    · rw [if_pos hs, joinSpace_nil, hs]
    · rw [if_neg hs, joinSpace_single]
  | cons pr rest ih =>
    intro s
    cases rest with
    | nil =>
      rw [List.map_cons, List.map_nil, joinChars_single]
      by_cases hs : s = ""
      · rw [if_pos hs, if_pos hs, List.append_nil, List.append_nil, joinSpace_single]
      · rw [if_neg hs, if_neg hs, List.cons_append, List.nil_append, joinSpace_cons2,
          joinSpace_single, toList_append, toList_append]
        simp [show ((" " : String).toList = [' ']) from rfl]
    | cons q rest' =>
      rw [List.map_cons, joinChars_cons2, List.cons_append, List.map_cons,
        List.cons_append, joinSpace_cons2, toList_append, toList_append]
      have h2 : q.1 :: (rest'.map Prod.fst ++ (if s = "" then [] else [s]))
          = (q :: rest').map Prod.fst ++ (if s = "" then [] else [s]) := by
        rw [List.map_cons, List.cons_append]
      rw [h2, ih s]
      simp [show ((" " : String).toList = [' ']) from rfl]

/-- Scanning the serialized stream: every part is consumed as its token,
and the residual is the separator spaces plus the search text. -/
theorem scan_join : ∀ (pairs : List (String × ParsedToken)) (s : String),
    (∀ pr ∈ pairs, SelfTok pr.1 pr.2) →
    (s = "" ∨ scanInput s.toList = ([], s.toList)) →
    scanInput (joinChars pairs s) = (pairs.map Prod.snd, resChars pairs s) := by
  intro pairs
  induction pairs with
  | nil =>
    intro s _ hs
    rcases hs with h | h
    · subst h
      rfl
    · rw [joinChars_nil, resChars_nil, h]
      rfl
  | cons pr rest ih =>
    intro s hsf hs
    have hself : SelfTok pr.1 pr.2 := hsf pr (List.mem_cons_self _ _)
    have hrest : ∀ q ∈ rest, SelfTok q.1 q.2 :=
      fun q hq => hsf q (List.mem_cons_of_mem _ hq)
    obtain ⟨c, cs, hc⟩ := List.exists_cons_of_ne_nil (selfTok_ne_nil hself)
    cases rest with
    | nil =>
      by_cases hse : s = ""
      · subst hse
        have hma := hself [] (Or.inl rfl)
        rw [hc, List.append_nil] at hma
        rw [joinChars_single, resChars_single, if_pos rfl,
          List.append_nil, hc, scanInput_pos hma]
        rfl
      · rcases hs with h | hscan
        · exact absurd h hse
        · have hma := hself (' ' :: s.toList) (Or.inr ⟨s.toList, rfl⟩)
          rw [hc, List.cons_append] at hma
          rw [joinChars_single, resChars_single, if_neg hse, hc,
            List.cons_append, scanInput_pos hma,
            scanInput_neg (matchAt_space s.toList), hscan]
          rfl
    | cons q rest' =>
      have hma := hself (' ' :: joinChars (q :: rest') s)
        (Or.inr ⟨joinChars (q :: rest') s, rfl⟩)
      rw [hc, List.cons_append] at hma
      rw [joinChars_cons2, resChars_cons2, hc, List.cons_append, scanInput_pos hma,
        scanInput_neg (matchAt_space (joinChars (q :: rest') s)), ih s hrest hs]
      rfl

/-- Trimming ignores a leading space. -/
theorem trimWS_cons_space (l : List Char) : trimWS (' ' :: l) = trimWS l := by
  unfold trimWS
  rw [List.dropWhile_cons, if_pos (show isSpaceChar ' ' = true by decide)]

/-- The residual of the serialized stream normalizes back to the search
text, provided the search text is already trimmed and collapsed. -/
theorem res_free : ∀ (pairs : List (String × ParsedToken)) (s : String),
    trimWS s.toList = s.toList → collapseWS s.toList = s.toList →
    String.mk (collapseWS (trimWS (resChars pairs s))) = s := by
  intro pairs
  induction pairs with
  | nil =>
    intro s ht hc2
    rw [resChars_nil, ht, hc2, mk_toList]
  | cons pr rest ih =>
    intro s ht hc2
    cases rest with
    | nil =>
      by_cases hse : s = ""
      · subst hse
        rw [resChars_single, if_pos rfl]
        rfl
      · rw [resChars_single, if_neg hse, trimWS_cons_space, ht, hc2, mk_toList]
    | cons q rest' =>
      rw [resChars_cons2, trimWS_cons_space]
      exact ih s ht hc2


/-! ### Round-trip machinery: rebuilding the state from its tokens -/

/-- Loop step on an include-group token. -/
theorem applyToken_group_inc (acc : FilterState) (v r : String) :
    applyToken "" acc { key := "group", value := v, negated := false, raw := r }
      = { acc with groups := acc.groups ++ [v] } := by
  simp [applyToken]

/-- Loop step on an exclude-group token. -/
theorem applyToken_group_exc (acc : FilterState) (v r : String) :
    applyToken "" acc { key := "group", value := v, negated := true, raw := r }
      = { acc with excludeGroups := acc.excludeGroups ++ [v] } := by
  simp [applyToken]

/-- Loop step on an include-scaler token. -/
theorem applyToken_scaler_inc (acc : FilterState) (v r : String) :
    applyToken "" acc { key := "scaler", value := v, negated := false, raw := r }
      = { acc with scalers := acc.scalers ++ [v] } := by
  simp [applyToken]

/-- Loop step on an exclude-scaler token. -/
theorem applyToken_scaler_exc (acc : FilterState) (v r : String) :
    applyToken "" acc { key := "scaler", value := v, negated := true, raw := r }
      = { acc with excludeScalers := acc.excludeScalers ++ [v] } := by
  simp [applyToken]

/-- Loop step on an include-creator token (no current user, so `@me` would
stay literal; any value is appended as is). -/
theorem applyToken_creator_inc (acc : FilterState) (v r : String) :
    applyToken "" acc { key := "creator", value := v, negated := false, raw := r }
      = { acc with creators := acc.creators ++ [v] } := by
  simp [applyToken, creatorVal]

/-- Loop step on an exclude-creator token with no current user. -/
theorem applyToken_creator_exc (acc : FilterState) (v r : String) :
    applyToken "" acc { key := "creator", value := v, negated := true, raw := r }
      = { acc with excludeCreators := acc.excludeCreators ++ [v] } := by
  simp [applyToken, creatorVal]

/-- Loop step on an include-pipeline token. -/
theorem applyToken_pipe_inc (acc : FilterState) (v r : String) :
    applyToken "" acc { key := "pipeline", value := v, negated := false, raw := r }
      = { acc with pipelines := acc.pipelines ++ [v] } := by
  simp [applyToken]

/-- Loop step on an exclude-pipeline token. -/
theorem applyToken_pipe_exc (acc : FilterState) (v r : String) :
    applyToken "" acc { key := "pipeline", value := v, negated := true, raw := r }
      = { acc with excludePipelines := acc.excludePipelines ++ [v] } := by
  simp [applyToken]

/-- Loop step on an `is:generator` token. -/
theorem applyToken_is_generator (acc : FilterState) (r : String) (neg : Bool) :
    applyToken "" acc { key := "is", value := "generator", negated := neg, raw := r }
      = { acc with generator := some (!neg) } := by
  have h1 : lowerString "generator" = "generator" := by decide
  simp [applyToken, h1]

/-- Loop step on an `is:used` token. -/
theorem applyToken_is_used (acc : FilterState) (r : String) (neg : Bool) :
    applyToken "" acc { key := "is", value := "used", negated := neg, raw := r }
      = { acc with used := some (!neg) } := by
  have h1 : lowerString "used" = "used" := by decide
  simp [applyToken, h1]

/-- Loop step on an `is:orphan` token. -/
theorem applyToken_is_orphan (acc : FilterState) (r : String) (neg : Bool) :
    applyToken "" acc { key := "is", value := "orphan", negated := neg, raw := r }
      = { acc with used := some neg } := by
  have h1 : lowerString "orphan" = "orphan" := by decide
  simp [applyToken, h1]

/-- Folding the include-group token block appends the values. -/
theorem foldl_group_inc : ∀ (vs : List String) (acc : FilterState),
    List.foldl (applyToken "") acc
        (List.map Prod.snd (List.map (qTokPair false "group") vs))
      = { acc with groups := acc.groups ++ vs } := by
  intro vs
  induction vs with
  | nil =>
    intro acc
    rw [List.map_nil, List.map_nil, List.foldl_nil, List.append_nil]
  | cons v vs ih =>
    intro acc
    have hq : (qTokPair false "group" v).2 = ({ key := "group", value := v, negated := false, raw := (qTokPair false "group" v).1 } : ParsedToken) := rfl
    rw [List.map_cons, List.map_cons, List.foldl_cons, hq, applyToken_group_inc, ih]
    simp

/-- Folding the exclude-group token block appends the values. -/
theorem foldl_group_exc : ∀ (vs : List String) (acc : FilterState),
    List.foldl (applyToken "") acc
        (List.map Prod.snd (List.map (qTokPair true "group") vs))
      = { acc with excludeGroups := acc.excludeGroups ++ vs } := by
  intro vs
  induction vs with
  | nil =>
    intro acc
    rw [List.map_nil, List.map_nil, List.foldl_nil, List.append_nil]
  | cons v vs ih =>
    intro acc
    have hq : (qTokPair true "group" v).2 = ({ key := "group", value := v, negated := true, raw := (qTokPair true "group" v).1 } : ParsedToken) := rfl
    rw [List.map_cons, List.map_cons, List.foldl_cons, hq, applyToken_group_exc, ih]
    simp

/-- Folding the include-scaler token block appends the values. -/
theorem foldl_scaler_inc : ∀ (vs : List String) (acc : FilterState),
    List.foldl (applyToken "") acc
        (List.map Prod.snd (List.map (bTokPair false "scaler") vs))
      = { acc with scalers := acc.scalers ++ vs } := by
  intro vs
  induction vs with
  | nil =>
    intro acc
    rw [List.map_nil, List.map_nil, List.foldl_nil, List.append_nil]
  | cons v vs ih =>
    intro acc
    have hq : (bTokPair false "scaler" v).2 = ({ key := "scaler", value := v, negated := false, raw := (bTokPair false "scaler" v).1 } : ParsedToken) := rfl
    rw [List.map_cons, List.map_cons, List.foldl_cons, hq, applyToken_scaler_inc, ih]
    simp

/-- Folding the exclude-scaler token block appends the values. -/
theorem foldl_scaler_exc : ∀ (vs : List String) (acc : FilterState),
    List.foldl (applyToken "") acc
        (List.map Prod.snd (List.map (bTokPair true "scaler") vs))
      = { acc with excludeScalers := acc.excludeScalers ++ vs } := by
  intro vs
  induction vs with
  | nil =>
    intro acc
    rw [List.map_nil, List.map_nil, List.foldl_nil, List.append_nil]
  | cons v vs ih =>
    intro acc
    have hq : (bTokPair true "scaler" v).2 = ({ key := "scaler", value := v, negated := true, raw := (bTokPair true "scaler" v).1 } : ParsedToken) := rfl
    rw [List.map_cons, List.map_cons, List.foldl_cons, hq, applyToken_scaler_exc, ih]
    simp

/-- Folding the include-creator token block appends the values. -/
theorem foldl_creator_inc : ∀ (vs : List String) (acc : FilterState),
    List.foldl (applyToken "") acc
        (List.map Prod.snd (List.map (qTokPair false "creator") vs))
      = { acc with creators := acc.creators ++ vs } := by
  intro vs
  induction vs with
  | nil =>
    intro acc
    rw [List.map_nil, List.map_nil, List.foldl_nil, List.append_nil]
  | cons v vs ih =>
    intro acc
    have hq : (qTokPair false "creator" v).2 = ({ key := "creator", value := v, negated := false, raw := (qTokPair false "creator" v).1 } : ParsedToken) := rfl
    rw [List.map_cons, List.map_cons, List.foldl_cons, hq, applyToken_creator_inc, ih]
    simp

/-- Folding the exclude-creator token block appends the values. -/
theorem foldl_creator_exc : ∀ (vs : List String) (acc : FilterState),
    List.foldl (applyToken "") acc
        (List.map Prod.snd (List.map (qTokPair true "creator") vs))
      = { acc with excludeCreators := acc.excludeCreators ++ vs } := by
  intro vs
  induction vs with
  | nil =>
    intro acc
    rw [List.map_nil, List.map_nil, List.foldl_nil, List.append_nil]
  | cons v vs ih =>
    intro acc
    have hq : (qTokPair true "creator" v).2 = ({ key := "creator", value := v, negated := true, raw := (qTokPair true "creator" v).1 } : ParsedToken) := rfl
    rw [List.map_cons, List.map_cons, List.foldl_cons, hq, applyToken_creator_exc, ih]
    simp

/-- Folding the include-pipeline token block appends the values. -/
theorem foldl_pipe_inc : ∀ (vs : List String) (acc : FilterState),
    List.foldl (applyToken "") acc
        (List.map Prod.snd (List.map (qTokPair false "pipeline") vs))
      = { acc with pipelines := acc.pipelines ++ vs } := by
  intro vs
  induction vs with
  | nil =>
    intro acc
    rw [List.map_nil, List.map_nil, List.foldl_nil, List.append_nil]
  | cons v vs ih =>
    intro acc
    have hq : (qTokPair false "pipeline" v).2 = ({ key := "pipeline", value := v, negated := false, raw := (qTokPair false "pipeline" v).1 } : ParsedToken) := rfl
    rw [List.map_cons, List.map_cons, List.foldl_cons, hq, applyToken_pipe_inc, ih]
    simp

/-- Folding the exclude-pipeline token block appends the values. -/
theorem foldl_pipe_exc : ∀ (vs : List String) (acc : FilterState),
    List.foldl (applyToken "") acc
        (List.map Prod.snd (List.map (qTokPair true "pipeline") vs))
      = { acc with excludePipelines := acc.excludePipelines ++ vs } := by
  intro vs
  induction vs with
  | nil =>
    intro acc
    rw [List.map_nil, List.map_nil, List.foldl_nil, List.append_nil]
  | cons v vs ih =>
    intro acc
    have hq : (qTokPair true "pipeline" v).2 = ({ key := "pipeline", value := v, negated := true, raw := (qTokPair true "pipeline" v).1 } : ParsedToken) := rfl
    rw [List.map_cons, List.map_cons, List.foldl_cons, hq, applyToken_pipe_exc, ih]
    simp

/-- Folding the generator block sets the tri-state when present. -/
theorem foldl_gen (o : Option Bool) (acc : FilterState) :
    List.foldl (applyToken "") acc (List.map Prod.snd (genPairs o))
      = { acc with generator := (match o with | none => acc.generator | some b => some b) } := by
  rcases o with _ | b
  · rfl
  · cases b
    · have hq : List.map Prod.snd (genPairs (some false)) = [({ key := "is", value := "generator", negated := true, raw := (bTokPair true "is" "generator").1 } : ParsedToken)] := rfl
      rw [hq, List.foldl_cons, List.foldl_nil, applyToken_is_generator]
      rfl
    · have hq : List.map Prod.snd (genPairs (some true)) = [({ key := "is", value := "generator", negated := false, raw := (bTokPair false "is" "generator").1 } : ParsedToken)] := rfl
      rw [hq, List.foldl_cons, List.foldl_nil, applyToken_is_generator]
      rfl

/-- Folding the used block sets the tri-state when present. -/
theorem foldl_used (o : Option Bool) (acc : FilterState) :
    List.foldl (applyToken "") acc (List.map Prod.snd (usedPairs o))
      = { acc with used := (match o with | none => acc.used | some b => some b) } := by
  rcases o with _ | b
  · rfl
  · cases b
    · have hq : List.map Prod.snd (usedPairs (some false)) = [({ key := "is", value := "orphan", negated := false, raw := (bTokPair false "is" "orphan").1 } : ParsedToken)] := rfl
      rw [hq, List.foldl_cons, List.foldl_nil, applyToken_is_orphan]
    · have hq : List.map Prod.snd (usedPairs (some true)) = [({ key := "is", value := "used", negated := false, raw := (bTokPair false "is" "used").1 } : ParsedToken)] := rfl
      rw [hq, List.foldl_cons, List.foldl_nil, applyToken_is_used]
      rfl

/-- Replaying the serialized tokens over the default state (with the search
text restored) rebuilds the original `FilterState` exactly. -/
theorem rebuild (f : FilterState) :
    tokensToFilters ((pairsOf f).map Prod.snd) f.search "" = f := by
  obtain ⟨se, g, eg, sc, esc, gen, cr, ecr, us, pi, epi⟩ := f
  unfold tokensToFilters pairsOf
  simp only [List.map_append, List.foldl_append]
  rw [foldl_group_inc, foldl_group_exc, foldl_scaler_inc, foldl_scaler_exc, foldl_gen,
    foldl_creator_inc, foldl_creator_exc, foldl_used, foldl_pipe_inc, foldl_pipe_exc]
  rcases gen with _ | b <;> rcases us with _ | b2 <;> simp [DEFAULT_FILTER_STATE]

/-- The serialize-then-parse round trip is the identity on well-formed
states (with no current user, so `@me` creator values stay literal both
ways). -/
theorem roundtrip_good (f : FilterState) (hf : goodState f) :
    parseQueryString (filtersToQueryString f) "" = f := by
  have hsearch : f.search = "" ∨ scanInput f.search.toList = ([], f.search.toList) := by
    rcases hf.2.2.2.2.2.2.2.2 with h | ⟨h1, _, _⟩
    · exact Or.inl h
    · exact Or.inr h1
  have htc1 : trimWS f.search.toList = f.search.toList := by
    rcases hf.2.2.2.2.2.2.2.2 with h | ⟨_, h2, _⟩
    · rw [h]
      rfl
    · exact h2
  have htc2 : collapseWS f.search.toList = f.search.toList := by
    rcases hf.2.2.2.2.2.2.2.2 with h | ⟨_, _, h3⟩
    · rw [h]
      rfl
    · exact h3
  have hchars : (filtersToQueryString f).toList = joinChars (pairsOf f) f.search := by
    unfold filtersToQueryString
    rw [parts_eq]
    exact joinSpace_pairs (pairsOf f) f.search
  have hscan := scan_join (pairsOf f) f.search (selfTok_pairsOf f hf) hsearch
  unfold parseQueryString parseInput extractFreeText
  rw [hchars, hscan]
  show tokensToFilters ((pairsOf f).map Prod.snd)
      (String.mk (collapseWS (trimWS (resChars (pairsOf f) f.search)))) "" = f
  rw [res_free (pairsOf f) f.search htc1 htc2]
  exact rebuild f

instance (v : String) : Decidable (goodVal v) :=
  decidable_of_iff (v ≠ "" ∧ ∀ c ∈ v.toList, ¬ c = '"' ∧ (isSpaceChar c = true → c = ' '))
    Iff.rfl

instance (v : String) : Decidable (goodBare v) :=
  decidable_of_iff (v ≠ "" ∧ ∀ c ∈ v.toList, ¬ c = '"' ∧ isSpaceChar c = false) Iff.rfl

instance (f : FilterState) : Decidable (goodState f) :=
  decidable_of_iff ((∀ v ∈ f.groups, goodVal v) ∧ (∀ v ∈ f.excludeGroups, goodVal v) ∧
    (∀ v ∈ f.scalers, goodBare v) ∧ (∀ v ∈ f.excludeScalers, goodBare v) ∧
    (∀ v ∈ f.creators, goodVal v) ∧ (∀ v ∈ f.excludeCreators, goodVal v) ∧
    (∀ v ∈ f.pipelines, goodVal v) ∧ (∀ v ∈ f.excludePipelines, goodVal v) ∧
    (f.search = "" ∨ (scanInput f.search.toList = ([], f.search.toList) ∧
      trimWS f.search.toList = f.search.toList ∧
      collapseWS f.search.toList = f.search.toList))) Iff.rfl

/-! ### Claim C1 -/

/-- Counterexample for C1: the input `group:"` parses to a state with the
empty group value, which serializes to `group:` — a string with no valid
token — so the re-parse turns it into free text and the round trip fails. -/
theorem claim1_counterexample :
    parseQueryString (filtersToQueryString (parseQueryString "group:\"" "")) ""
      ≠ parseQueryString "group:\"" "" := by
  decide

/-- Claim C1 (amended): for every input string whose parse is well-formed —
every include/exclude value non-empty, free of double quotes, with no
whitespace besides plain spaces (and scaler values with no whitespace at
all), and a search component that is whitespace-normalized and free of
token matches — parsing, serializing, and parsing again yields the first
parse exactly (with no current user). -/
theorem claim1_roundtrip (s : String) (hgood : goodState (parseQueryString s "")) :
    parseQueryString (filtersToQueryString (parseQueryString s "")) ""
      = parseQueryString s "" :=
  roundtrip_good (parseQueryString s "") hgood

/-- Witness for C1: a concrete input with groups, an excluded scaler, the
generator flag, a quoted pipeline and free text round-trips exactly. -/
theorem claim1_witness :
    goodState (parseQueryString
      "group:alpha -scaler:K8s is:generator pipeline:\"p one\" hello world" "") ∧
    parseQueryString (filtersToQueryString (parseQueryString
        "group:alpha -scaler:K8s is:generator pipeline:\"p one\" hello world" "")) ""
      = parseQueryString
        "group:alpha -scaler:K8s is:generator pipeline:\"p one\" hello world" "" :=
  ⟨by decide, claim1_roundtrip _ (by decide)⟩

end Thorium
